import Mathlib

/-!
# FluidNC stepping dispatcher: pin table, `step` and `unstep`

A shallow embedding of `FluidNC/src/Stepping.cpp`.

* The static members of `Stepping` (`_n_active_axes`, `axis_motors`,
  `axis_steps`) and the function-local static `previous_dir_mask` of
  `Stepping::step` are the fields of `State`.
* Every call through the `step_engine` function table is recorded, in program
  order, as a `Call`; each operation returns the new state together with the
  calls it made.  Values returned by the backend (`init_step_pin`,
  `start_unstep`) are arguments of the operation that consumes them, so the
  theorems hold for every backend.
* `uint8_t` masks are natural numbers reduced modulo `2 ^ 8`; the `int`
  accumulators are integers wrapped to 32-bit two's complement.
* `MAX_MOTORS_PER_AXIS` is declared in a header outside these sources and is
  a parameter of the operations that loop over motor slots.
* The arrays `axis_motors` and `axis_steps` are functions of their indices;
  the hot path visits the slots with `axis < _n_active_axes` and
  `motor < MAX_MOTORS_PER_AXIS`.
* The engine registry is the list of engines in `link` order; C strings are
  lists of characters, and a failed `Assert` is an `Except.error`.
-/

namespace Stepping

/-! ## Data model -/

/-- Record `Stepping::motor_t`: one occupied slot of the pin table. -/
structure motor_t where
  step_pin : Int
  step_invert : Bool
  dir_pin : Int
  dir_invert : Bool
  blocked : Bool
  limited : Bool
deriving DecidableEq, Repr

/-- One call through the `step_engine` function table, with its arguments. -/
inductive Call where
  | init_step_pin (pin : Int) (step_invert : Bool)
  | set_dir_pin (pin : Int) (level : Bool)
  | finish_dir
  | set_step_pin (pin : Int) (level : Bool)
  | finish_step
  | start_unstep
  | finish_unstep
deriving DecidableEq, Repr

/-- The mutable static data of `Stepping`.  `axis_motors axis motor = none` is
the null pointer of an unoccupied slot. -/
structure State where
  n_active_axes : Nat
  axis_motors : Nat → Nat → Option motor_t
  axis_steps : Nat → Int
  previous_dir_mask : Nat

/-- A state together with the backend calls issued so far. -/
abbrev Run := State × List Call

/-- State at program start: `_n_active_axes = 0`, every slot `nullptr`, every
accumulator `0`, `previous_dir_mask = 255`. -/
def State.initial : State :=
  { n_active_axes := 0
    axis_motors := fun _ _ => none
    axis_steps := fun _ => 0
    previous_dir_mask := 255 }

/-! ## Machine arithmetic -/

/-- Conversion of a value to `uint8_t`. -/
def to_uint8 (x : Nat) : Nat := x % 2 ^ 8

/-- The expression `~x` for a `uint8_t` operand, stored back into a
`uint8_t`: the operand is promoted to `int`, complemented (`-1 - x`) and
truncated to eight bits. -/
def not_uint8 (x : Nat) : Nat := ((-1 - (x : Int)) % 2 ^ 8).toNat

/-- Value of a 32-bit two's-complement `int` after an arithmetic result `x`
is stored into it. -/
def to_int32 (x : Int) : Int := (x + 2 ^ 31) % 2 ^ 32 - 2 ^ 31

/-- Modelled from the spec: the macro `bitnum_is_true(x, y)` is declared in a
header outside these sources; it tests whether the bit of axis `y` is set in
the mask `x`. -/
def bitnum_is_true (x y : Nat) : Bool := x.testBit y

/-! ## Control flow -/

/-- Append one backend call to the trace. -/
def call (c : Call) (r : Run) : Run := (r.1, r.2 ++ [c])

/-- The loop `for (size_t i = 0; i < n; i++) body(i)`. -/
def for_loop {σ : Type} (n : Nat) (body : Nat → σ → σ) (s : σ) : σ :=
  match n with
  | 0 => s
  | k + 1 => body k (for_loop k body s)

/-! ## Pin table operations -/

/-- Assignment `axis_motors[axis][motor] = m`. -/
def set_motor (tbl : Nat → Nat → Option motor_t) (axis motor : Nat) (m : motor_t) :
    Nat → Nat → Option motor_t :=
  fun a k => if a = axis ∧ k = motor then some m else tbl a k

/-- Method `Stepping::assignMotor`.  `handle` is the value returned by
`step_engine->init_step_pin(step_pin, step_invert)`. -/
def assignMotor (handle : Int) (axis motor : Nat) (step_pin : Int) (step_invert : Bool)
    (dir_pin : Int) (dir_invert : Bool) (st : State) : Run :=
  let st := if axis ≥ st.n_active_axes then { st with n_active_axes := axis + 1 } else st
  let r := call (Call.init_step_pin step_pin step_invert) (st, [])
  let step_pin := handle
  let m : motor_t :=
    { step_pin := step_pin
      step_invert := step_invert
      dir_pin := dir_pin
      dir_invert := dir_invert
      blocked := false
      limited := false }
  ({ r.1 with axis_motors := set_motor r.1.axis_motors axis motor m }, r.2)

/-- Method `Stepping::block`. -/
def block (axis motor : Nat) (st : State) : State :=
  match st.axis_motors axis motor with
  | some m => { st with axis_motors := set_motor st.axis_motors axis motor { m with blocked := true } }
  | none => st

/-- Method `Stepping::unblock`. -/
def unblock (axis motor : Nat) (st : State) : State :=
  match st.axis_motors axis motor with
  | some m => { st with axis_motors := set_motor st.axis_motors axis motor { m with blocked := false } }
  | none => st

/-- Method `Stepping::limit`. -/
def limit (axis motor : Nat) (st : State) : State :=
  match st.axis_motors axis motor with
  | some m => { st with axis_motors := set_motor st.axis_motors axis motor { m with limited := true } }
  | none => st

/-- Method `Stepping::unlimit`. -/
def unlimit (axis motor : Nat) (st : State) : State :=
  match st.axis_motors axis motor with
  | some m => { st with axis_motors := set_motor st.axis_motors axis motor { m with limited := false } }
  | none => st

/-! ## Hot path -/

/-- Inner loop of the direction phase of `Stepping::step` (source lines
141-146): write the direction pin of every occupied slot of `axis`. -/
def set_dir_pins (MAX_MOTORS_PER_AXIS : Nat) (axis : Nat) (dir : Bool) (r : Run) : Run :=
  for_loop MAX_MOTORS_PER_AXIS (fun motor r =>
    match r.1.axis_motors axis motor with
    | some m => call (Call.set_dir_pin m.dir_pin (xor dir m.dir_invert)) r
    | none => r) r

/-- Direction phase of `Stepping::step` (source lines 136-152). -/
def dir_phase (MAX_MOTORS_PER_AXIS : Nat) (dir_mask : Nat) (r : Run) : Run :=
  if dir_mask ≠ r.1.previous_dir_mask then
    let r := for_loop r.1.n_active_axes (fun axis r =>
      let dir := bitnum_is_true dir_mask axis
      let old_dir := bitnum_is_true r.1.previous_dir_mask axis
      let r := if dir ≠ old_dir then set_dir_pins MAX_MOTORS_PER_AXIS axis dir r else r
      call Call.finish_dir r) r
    ({ r.1 with previous_dir_mask := dir_mask }, r.2)
  else r

/-- Inner loop of the step phase of `Stepping::step` (source lines 159-164):
assert the step pin of every occupied slot of `axis` that is neither blocked
nor limited. -/
def set_step_pins (MAX_MOTORS_PER_AXIS : Nat) (axis : Nat) (r : Run) : Run :=
  for_loop MAX_MOTORS_PER_AXIS (fun motor r =>
    match r.1.axis_motors axis motor with
    | some m =>
      if !m.blocked && !m.limited then call (Call.set_step_pin m.step_pin (!m.step_invert)) r
      else r
    | none => r) r

/-- Step phase of `Stepping::step` (source lines 155-166). -/
def step_phase (MAX_MOTORS_PER_AXIS : Nat) (step_mask dir_mask : Nat) (r : Run) : Run :=
  for_loop r.1.n_active_axes (fun axis r =>
    if bitnum_is_true step_mask axis then
      let increment : Int := if bitnum_is_true dir_mask axis then -1 else 1
      let r : Run :=
        ({ r.1 with
            axis_steps := Function.update r.1.axis_steps axis
              (to_int32 (r.1.axis_steps axis + increment)) }, r.2)
      set_step_pins MAX_MOTORS_PER_AXIS axis r
    else r) r

/-- Method `Stepping::step`.  The arguments are converted to `uint8_t` at the
call; the result is the state after the call and the backend calls made. -/
def step (MAX_MOTORS_PER_AXIS : Nat) (step_mask dir_mask : Nat) (st : State) : Run :=
  let step_mask := to_uint8 step_mask
  let dir_mask := to_uint8 dir_mask
  let st :=
    if st.previous_dir_mask = 255 then { st with previous_dir_mask := not_uint8 dir_mask }
    else st
  let r := dir_phase MAX_MOTORS_PER_AXIS dir_mask (st, [])
  let r := step_phase MAX_MOTORS_PER_AXIS step_mask dir_mask r
  call Call.finish_step r

/-- Method `Stepping::unstep`.  `self_managed` is the value returned by
`step_engine->start_unstep()`. -/
def unstep (MAX_MOTORS_PER_AXIS : Nat) (self_managed : Bool) (st : State) : Run :=
  let r := call Call.start_unstep (st, [])
  if self_managed then r
  else
    let r := for_loop r.1.n_active_axes (fun axis r =>
      for_loop MAX_MOTORS_PER_AXIS (fun motor r =>
        match r.1.axis_motors axis motor with
        | some m => call (Call.set_step_pin m.step_pin m.step_invert) r
        | none => r) r) r
    call Call.finish_unstep r

/-! ## Sequences of flag toggles -/

/-- The four flag toggles of the pin table. -/
inductive FlagOp where
  | block
  | unblock
  | limit
  | unlimit
deriving DecidableEq, Repr

/-- Run one flag toggle on the slot (`axis`, `motor`). -/
def FlagOp.run (op : FlagOp) (axis motor : Nat) (st : State) : State :=
  match op with
  | FlagOp.block => Stepping.block axis motor st
  | FlagOp.unblock => Stepping.unblock axis motor st
  | FlagOp.limit => Stepping.limit axis motor st
  | FlagOp.unlimit => Stepping.unlimit axis motor st

/-- Run a sequence of flag toggles on the slot (`axis`, `motor`), in order. -/
def run_flag_ops (ops : List FlagOp) (axis motor : Nat) (st : State) : State :=
  ops.foldl (fun s op => op.run axis motor s) st

/-! ## Specification-side vocabulary -/

/-! In this part `M` stands for `MAX_MOTORS_PER_AXIS`. -/

/-- The motors of `axis`, in slot order `0 .. MAX_MOTORS_PER_AXIS - 1`. -/
def axis_slots (MAX_MOTORS_PER_AXIS : Nat) (st : State) (axis : Nat) : List motor_t :=
  (List.range MAX_MOTORS_PER_AXIS).filterMap (st.axis_motors axis)

/-- Calls the direction phase makes for one axis when the remembered mask is
`prev`: the direction pin of every motor of the axis when the axis's bit
changed, then `finish_dir`. -/
def axis_dir_calls (M : Nat) (st : State) (dir_mask prev axis : Nat) : List Call :=
  (if bitnum_is_true dir_mask axis ≠ bitnum_is_true prev axis then
    (axis_slots M st axis).map
      (fun m => Call.set_dir_pin m.dir_pin (xor (bitnum_is_true dir_mask axis) m.dir_invert))
  else []) ++ [Call.finish_dir]

/-- Calls the step phase makes for one axis: the step pin of every motor of
the axis that is neither blocked nor limited, when the axis's bit is set. -/
def axis_step_calls (M : Nat) (st : State) (step_mask axis : Nat) : List Call :=
  if bitnum_is_true step_mask axis then
    ((axis_slots M st axis).filter (fun m => !m.blocked && !m.limited)).map
      (fun m => Call.set_step_pin m.step_pin (!m.step_invert))
  else []

/-- Accumulator of `axis` after the step phase. -/
def stepped (st : State) (step_mask dir_mask axis : Nat) : Int :=
  if axis < st.n_active_axes ∧ bitnum_is_true step_mask axis = true then
    to_int32 (st.axis_steps axis + (if bitnum_is_true dir_mask axis then -1 else 1))
  else st.axis_steps axis

/-- The mask the direction phase compares against: the remembered mask, or
the complement of the request while the memory holds the sentinel 255. -/
def compared_mask (st : State) (dir_mask : Nat) : Nat :=
  if st.previous_dir_mask = 255 then not_uint8 dir_mask else st.previous_dir_mask

/-- Calls of the whole direction phase. -/
def dir_calls (M : Nat) (st : State) (dir_mask : Nat) : List Call :=
  if dir_mask ≠ compared_mask st dir_mask then
    (List.range st.n_active_axes).flatMap
      (axis_dir_calls M st dir_mask (compared_mask st dir_mask))
  else []

/-- Calls of the whole step phase. -/
def step_calls (M : Nat) (st : State) (step_mask : Nat) : List Call :=
  (List.range st.n_active_axes).flatMap (axis_step_calls M st step_mask)

/-- The direction-pin writes of a trace, as (pin, level) pairs in program order. -/
def dir_writes (t : List Call) : List (Int × Bool) :=
  t.filterMap fun c =>
    match c with
    | Call.set_dir_pin pin level => some (pin, level)
    | _ => none

/-- The step-pin writes of a trace, as (pin, level) pairs in program order. -/
def step_writes (t : List Call) : List (Int × Bool) :=
  t.filterMap fun c =>
    match c with
    | Call.set_step_pin pin level => some (pin, level)
    | _ => none

/-- The direction-pin writes prescribed by the change rule between the masks
`prev_mask` and `dir_mask`: for every active axis whose bit differs, one write
per motor of the axis, with level (direction bit XOR `dir_invert`). -/
def changed_dir_writes (M : Nat) (st : State) (prev_mask dir_mask : Nat) : List (Int × Bool) :=
  (List.range st.n_active_axes).flatMap fun axis =>
    if bitnum_is_true dir_mask axis ≠ bitnum_is_true prev_mask axis then
      (axis_slots M st axis).map
        (fun m => (m.dir_pin, xor (bitnum_is_true dir_mask axis) m.dir_invert))
    else []

/-- One direction-pin write per motor of every active axis, with level
(direction bit XOR `dir_invert`). -/
def all_dir_writes (M : Nat) (st : State) (dir_mask : Nat) : List (Int × Bool) :=
  (List.range st.n_active_axes).flatMap fun axis =>
    (axis_slots M st axis).map
      (fun m => (m.dir_pin, xor (bitnum_is_true dir_mask axis) m.dir_invert))

/-- The step-pin assertions prescribed for a step mask: for every active axis
whose bit is set, one write per motor of the axis that is neither blocked nor
limited, with level NOT `step_invert`. -/
def asserted_step_writes (M : Nat) (st : State) (step_mask : Nat) : List (Int × Bool) :=
  (List.range st.n_active_axes).flatMap fun axis =>
    if bitnum_is_true step_mask axis then
      ((axis_slots M st axis).filter (fun m => !m.blocked && !m.limited)).map
        (fun m => (m.step_pin, !m.step_invert))
    else []

/-- The calls by which `unstep` deasserts the step pins: one write per motor
of every active axis, with level `step_invert`. -/
def unstep_calls (M : Nat) (st : State) : List Call :=
  (List.range st.n_active_axes).flatMap fun axis =>
    (axis_slots M st axis).map (fun m => Call.set_step_pin m.step_pin m.step_invert)

/-- Writes issued slot by slot: for every active axis selected by `sel`, one
entry `out axis m` per motor `m` of the axis selected by `keep`, in axis order
and, within an axis, in slot order. -/
def slot_writes (M : Nat) (st : State) (sel : Nat → Bool) (keep : motor_t → Bool)
    (out : Nat → motor_t → Int × Bool) : List (Int × Bool) :=
  (List.range st.n_active_axes).flatMap fun axis =>
    if sel axis then ((axis_slots M st axis).filter keep).map (out axis) else []

/-- Number of writes to pin `pin` in a list of (pin, level) writes. -/
def write_count (ws : List (Int × Bool)) (pin : Int) : Nat :=
  ws.countP (fun w => w.1 = pin)

/-- No other slot of an active axis holds a motor whose step pin is `pin`. -/
def step_pin_unshared (M : Nat) (st : State) (axis motor : Nat) (pin : Int) : Prop :=
  ∀ a, a < st.n_active_axes → ∀ m, m < M →
    (st.axis_motors a m).map motor_t.step_pin = some pin → a = axis ∧ m = motor

/-- No other slot of an active axis holds a motor whose direction pin is `pin`. -/
def dir_pin_unshared (M : Nat) (st : State) (axis motor : Nat) (pin : Int) : Prop :=
  ∀ a, a < st.n_active_axes → ∀ m, m < M →
    (st.axis_motors a m).map motor_t.dir_pin = some pin → a = axis ∧ m = motor

instance (M : Nat) (st : State) (axis motor : Nat) (pin : Int) :
    Decidable (step_pin_unshared M st axis motor pin) := by
  unfold step_pin_unshared; infer_instance

instance (M : Nat) (st : State) (axis motor : Nat) (pin : Int) :
    Decidable (dir_pin_unshared M st axis motor pin) := by
  unfold dir_pin_unshared; infer_instance

/-- The step-pin writes by which `unstep` deasserts: one write per motor of
every active axis, with level `step_invert`. -/
def released_step_writes (M : Nat) (st : State) : List (Int × Bool) :=
  (List.range st.n_active_axes).flatMap fun axis =>
    (axis_slots M st axis).map (fun m => (m.step_pin, m.step_invert))

/-! ## Example configurations -/

/-- One motor on axis 0, slot 0: raw step pin 12 with backend handle 7,
direction pin 14, neither polarity inverted. -/
def one_motor : State := (assignMotor 7 0 0 12 false 14 false State.initial).1

/-- Two motors on axis 0; the motor in slot 1 (handle 8, direction pin 15) is
blocked. -/
def two_motors_one_blocked : State :=
  block 0 1 (assignMotor 8 0 1 13 false 15 false one_motor).1

/-! ## Engine registry and engine selection -/

/-- A C string: its characters, without the terminating NUL. -/
abbrev c_string := List Char

/-- Library function `strlen`. -/
def strlen (s : c_string) : Nat := s.length

/-- Library function `strncmp(s1, s2, n)`: compares at most `n` characters and
stops where both strings end; the result is negative, zero or positive (here
-1, 0 or 1), a string that ends first being the smaller. -/
def strncmp (s1 s2 : c_string) (n : Nat) : Int :=
  match n with
  | 0 => 0
  | k + 1 =>
    match s1, s2 with
    | [], [] => 0
    | [], _ :: _ => -1
    | _ :: _, [] => 1
    | x :: t1, y :: t2 =>
      if x = y then strncmp t1 t2 k else if x.toNat < y.toNat then -1 else 1

/-- Library function `strcmp(s1, s2)`, with the same result convention. -/
def strcmp (s1 s2 : c_string) : Int :=
  match s1, s2 with
  | [], [] => 0
  | [], _ :: _ => -1
  | _ :: _, [] => 1
  | x :: t1, y :: t2 => if x = y then strcmp t1 t2 else if x.toNat < y.toNat then -1 else 1

/-- Modelled from the spec: the type `step_engine_t` is declared in a header
outside these sources.  An engine has a `name`; `id` stands for the rest of
the record (its table of backend functions), so that two engines of the same
name are told apart.  The `link` member is the tail of the registry list. -/
structure step_engine_t where
  name : c_string
  id : Nat
deriving DecidableEq, Repr

/-- Function `find_engine`; `step_engines` is the linked list of stepping
engines, in `link` order. -/
def find_engine (step_engines : List step_engine_t) (name : c_string) : Option step_engine_t :=
  match step_engines with
  | [] => none
  | p :: link =>
    if strncmp name p.name (strlen p.name) = 0 then some p else find_engine link name

/-- Modelled from the spec: the enumeration of engine types is declared in
`Stepping.h`, outside these sources: timed mode, pulse-train peripheral (RMT)
mode and the two serialized-stream (I2S) modes.  `Stepping::_engine` holds one
of its values. -/
inductive stepper_id_t where
  | TIMED
  | RMT_ENGINE
  | I2S_STATIC
  | I2S_STREAM
deriving DecidableEq, Repr

/-- Numeric value of an engine type, its position in `stepTypes`. -/
def stepper_id_t.toNat : stepper_id_t → Nat
  | stepper_id_t.TIMED => 0
  | stepper_id_t.RMT_ENGINE => 1
  | stepper_id_t.I2S_STATIC => 2
  | stepper_id_t.I2S_STREAM => 3

/-- Table `stepTypes` (source lines 39-43), without its terminating item. -/
def stepTypes : List (stepper_id_t × c_string) :=
  [ (stepper_id_t.TIMED, "Timed".toList),
    (stepper_id_t.RMT_ENGINE, "RMT".toList),
    (stepper_id_t.I2S_STATIC, "I2S_static".toList),
    (stepper_id_t.I2S_STREAM, "I2S_stream".toList) ]

/-- The two ways `Stepping::afterParse` can fail, one per `Assert`. -/
inductive ConfigError where
  | cannot_find_stepping_engine
  | i2so_bus_must_be_configured
deriving DecidableEq, Repr

/-- Method `Stepping::afterParse`.  `i2so` tells whether `config->_i2so` is
non-null.  The result is the selected `step_engine`, or the failed `Assert`. -/
def afterParse (step_engines : List step_engine_t) (_engine : stepper_id_t) (i2so : Bool) :
    Except ConfigError step_engine_t :=
  let name := (stepTypes.getD _engine.toNat (stepper_id_t.RMT_ENGINE, [])).2
  match find_engine step_engines name with
  | none => Except.error ConfigError.cannot_find_stepping_engine
  | some step_engine =>
    if strcmp "I2S".toList name ≠ 0 ∨ i2so = true then Except.ok step_engine
    else Except.error ConfigError.i2so_bus_must_be_configured

/-! ## Call sequences of the core -/

/-- One call of an operation of the core, with its arguments and the values the
backend returns to it. -/
inductive Op where
  | assignMotor (handle : Int) (axis motor : Nat) (step_pin : Int) (step_invert : Bool)
      (dir_pin : Int) (dir_invert : Bool)
  | block (axis motor : Nat)
  | unblock (axis motor : Nat)
  | limit (axis motor : Nat)
  | unlimit (axis motor : Nat)
  | step (step_mask dir_mask : Nat)
  | unstep (self_managed : Bool)
deriving DecidableEq, Repr

/-- State after one call. -/
def Op.run (M : Nat) (op : Op) (st : State) : State :=
  match op with
  | Op.assignMotor handle axis motor step_pin step_invert dir_pin dir_invert =>
    (Stepping.assignMotor handle axis motor step_pin step_invert dir_pin dir_invert st).1
  | Op.block axis motor => Stepping.block axis motor st
  | Op.unblock axis motor => Stepping.unblock axis motor st
  | Op.limit axis motor => Stepping.limit axis motor st
  | Op.unlimit axis motor => Stepping.unlimit axis motor st
  | Op.step step_mask dir_mask => (Stepping.step M step_mask dir_mask st).1
  | Op.unstep self_managed => (Stepping.unstep M self_managed st).1

/-- State after a sequence of calls, made in order. -/
def run_ops (M : Nat) (ops : List Op) (st : State) : State :=
  ops.foldl (fun s op => op.run M s) st

/-- An `assignMotor` call has its axis argument below `MAX_N_AXIS`, the first
dimension of the arrays `axis_motors` and `axis_steps`; other calls are not
constrained.  `MAX_N_AXIS` is declared in a header outside these sources and
is a parameter here. -/
def Op.assigns_in_range (MAX_N_AXIS : Nat) : Op → Prop
  | Op.assignMotor _ axis _ _ _ _ _ => axis < MAX_N_AXIS
  | _ => True

instance (N : Nat) (op : Op) : Decidable (op.assigns_in_range N) := by
  cases op <;> unfold Op.assigns_in_range <;> infer_instance

/-- Phase of a backend call within `step`: direction-pin writes and
direction-settle calls come in phase 0, step-pin writes in phase 1 and
`finish_step` in phase 2. -/
def step_call_phase : Call → Nat
  | Call.set_dir_pin _ _ => 0
  | Call.finish_dir => 0
  | Call.set_step_pin _ _ => 1
  | Call.finish_step => 2
  | _ => 3

/-- Number of active axes whose direction bit differs between two masks. -/
def changed_axes (st : State) (prev_mask dir_mask : Nat) : Nat :=
  ((List.range st.n_active_axes).filter
    (fun axis => bitnum_is_true dir_mask axis != bitnum_is_true prev_mask axis)).length

/-- Two axes with one motor each: the motor of `one_motor` on axis 0, and a
motor with handle 9 and direction pin 17 on axis 1. -/
def two_axes : State := (assignMotor 9 1 0 16 false 17 false one_motor).1

/-- A registry of three engines, in `link` order. -/
def three_engines : List step_engine_t :=
  [ { name := "Timed".toList, id := 0 },
    { name := "RMT".toList, id := 1 },
    { name := "I2S".toList, id := 2 } ]

/-- The string `a` equals an initial part of `b` up to letter case. -/
def prefix_up_to_case (a b : c_string) : Prop :=
  a.map Char.toLower <+: b.map Char.toLower

instance (a b : c_string) : Decidable (prefix_up_to_case a b) := by
  unfold prefix_up_to_case; infer_instance

end Stepping

/-! # Trinamic SPI driver

A shallow embedding of the parts of `FluidNC/src/Motors/TrinamicSpiDriver.cpp`
that check the daisy-chain indices and assemble received data.  Values
supplied by collaborators (the device handle returned by
`spi_register_device`, the pin id of the chip-select mapping, the bytes the
bus stores in the receive buffer) are arguments of the operation that
consumes them. -/

namespace MotorDrivers

/-- Conversion of a value to `uint32_t`. -/
def to_uint32 (x : Nat) : Nat := x % 2 ^ 32

/-- Conversion of an `int` value to `size_t`, which is 32 bits wide on the
ESP32. -/
def to_size_t (x : Int) : Nat := (x % 2 ^ 32).toNat

/-- Modelled from the spec: the macro `set_bitnum(target, bitnum)` is declared
in a header outside these sources; it sets the bit of number `bitnum` in
`target`.  The target here is a `uint8_t`, so the result of
`target | (1 << bitnum)` is truncated to eight bits when stored. -/
def set_bitnum (target bitnum : Nat) : Nat := Stepping.to_uint8 (target ||| (1 <<< bitnum))

/-- Modelled from the spec: the macro `bitnum_is_false(target, bitnum)` is
declared in a header outside these sources; it tests whether the bit of number
`bitnum` is clear in `target`. -/
def bitnum_is_false (target bitnum : Nat) : Bool := !(target.testBit bitnum)

/-- The static members of `TrinamicSpiDriver`. -/
structure TrinamicStatics where
  daisy_chain_cs_id : Nat
  daisy_chain_spi_devid : Nat
  spi_index_mask : Nat
  spi_index_max : Nat
deriving DecidableEq, Repr

/-- The static members at program start (source lines 15-18); the device
handle has no initializer and is written before it is read. -/
def TrinamicStatics.initial : TrinamicStatics :=
  { daisy_chain_cs_id := 255
    daisy_chain_spi_devid := 0
    spi_index_mask := 0
    spi_index_max := 0 }

/-- The members of one `TrinamicSpiDriver` instance that `afterParse` uses:
whether `cs_pin` is configured, `_spi_index` (-1 when not configured) and
`_spi_devid`. -/
structure TrinamicSpiDriver where
  cs_pin_defined : Bool
  spi_index : Int
  spi_devid : Nat
deriving DecidableEq, Repr

/-- The ways `TrinamicSpiDriver::afterParse` can fail, one per `Assert`. -/
inductive TmcConfigError where
  | cs_pin_must_be_configured
  | cs_pin_must_be_configured_only_once
  | spi_index_must_be_configured
  | spi_index_must_be_unique
deriving DecidableEq, Repr

/-- Method `TrinamicSpiDriver::afterParse`.  `devid` is the value returned by
`spi_register_device` and `cs_id` the value of `_cs_mapping.pinId()`.  The
result is the instance and the static members after the call, or the failed
`Assert`. -/
def TrinamicSpiDriver.afterParse (devid cs_id : Nat) (d : TrinamicSpiDriver)
    (s : TrinamicStatics) : Except TmcConfigError (TrinamicSpiDriver × TrinamicStatics) :=
  if s.daisy_chain_cs_id = 255 then
    if d.cs_pin_defined = false then Except.error TmcConfigError.cs_pin_must_be_configured
    else
      let d := { d with spi_devid := devid }
      if d.spi_index ≠ -1 then
        let s := { s with daisy_chain_cs_id := Stepping.to_uint8 cs_id }
        let s := { s with spi_index_mask := set_bitnum s.spi_index_mask d.spi_index.toNat }
        let s := { s with daisy_chain_spi_devid := d.spi_devid }
        Except.ok (d, s)
      else
        Except.ok ({ d with spi_index := 1 }, s)
  else
    if d.cs_pin_defined = true then
      Except.error TmcConfigError.cs_pin_must_be_configured_only_once
    else if d.spi_index = -1 then Except.error TmcConfigError.spi_index_must_be_configured
    else if bitnum_is_false s.spi_index_mask d.spi_index.toNat = false then
      Except.error TmcConfigError.spi_index_must_be_unique
    else
      let s := { s with spi_index_mask := set_bitnum s.spi_index_mask d.spi_index.toNat }
      let s :=
        if d.spi_index > (s.spi_index_max : Int) then
          { s with spi_index_max := Stepping.to_uint8 d.spi_index.toNat }
        else s
      Except.ok ({ d with spi_devid := s.daisy_chain_spi_devid }, s)

/-- Constant `packetBytes`. -/
def packetBytes : Nat := 5

/-- Constant `packetBits`. -/
def packetBits : Nat := packetBytes * 8

/-- The assignment `x = e` to a variable that already holds a value: the old
value is dropped. -/
def assign {α : Type} (_old new : α) : α := new

/-- The arguments `dummybits` (a `uint8_t`) and `inbits` of a call of
`spi_receive`. -/
structure spi_receive_args where
  dummybits : Nat
  inbits : Nat
deriving DecidableEq, Repr

/-- Function `tmc_spi_receive`.  `inbuf i` is the byte `in[i]` the bus stored in
the receive buffer.  The result is the arguments passed to `spi_receive` and
the value returned. -/
def tmc_spi_receive (index max_index : Int) (inbuf : Nat → Nat) : spi_receive_args × Nat :=
  let afterChips := to_size_t (max_index - index)
  let dummyInBits := to_size_t ((afterChips : Int) * (packetBits : Int))
  let args : spi_receive_args :=
    { dummybits := Stepping.to_uint8 dummyInBits, inbits := packetBits }
  let data := to_uint32 (Stepping.to_uint8 (inbuf 1) <<< 24)
  let data := assign data (to_uint32 (Stepping.to_uint8 (inbuf 2) <<< 16))
  let data := assign data (to_uint32 (Stepping.to_uint8 (inbuf 3) <<< 8))
  let data := assign data (to_uint32 (Stepping.to_uint8 (inbuf 4)))
  (args, data)

/-- Conversion of a value to `uint16_t`. -/
def to_uint16 (x : Nat) : Nat := x % 2 ^ 16

/-- The fields of the `spi_transaction_ext_t` that `spi_send_cmd_addr` sets to
a value other than zero or null and hands to the bus transport
(`spi_device_polling_transmit`). -/
structure spi_transaction_ext_t where
  cmd : Nat
  addr : Nat
  command_bits : Nat
  address_bits : Nat
  dummy_bits : Nat
deriving DecidableEq, Repr

/-- Function `spi_send_cmd_addr` of `esp32/spi.cpp`: the transaction it hands to
the bus transport.  The arguments are converted to the parameter types
(`uint16_t cmd`, `uint8_t cmdbits`, `uint32_t addr`, `uint8_t addrbits`,
`uint8_t dummybits`) at the call. -/
def spi_send_cmd_addr (cmd cmdbits addr addrbits dummybits : Nat) : spi_transaction_ext_t :=
  let cmd := to_uint16 cmd
  let cmdbits := Stepping.to_uint8 cmdbits
  let addr := to_uint32 addr
  let addrbits := Stepping.to_uint8 addrbits
  let dummybits := Stepping.to_uint8 dummybits
  { cmd := cmd
    addr := addr
    command_bits := cmdbits
    address_bits := addrbits
    dummy_bits := dummybits }

/-- Function `tmc_spi_send`: the transaction handed to the bus transport for
register `reg`, data word `data` and chain position `index`. -/
def tmc_spi_send (reg data : Nat) (index : Int) : spi_transaction_ext_t :=
  let reg := Stepping.to_uint8 reg
  let data := to_uint32 data
  let beforeChips := to_size_t (index - 1)
  let dummyOutBits := to_size_t ((beforeChips : Int) * (packetBits : Int))
  spi_send_cmd_addr reg 8 data 32 dummyOutBits

/-- The big-endian 32-bit value of the four data bytes of a packet,
`in[1] << 24 | in[2] << 16 | in[3] << 8 | in[4]`. -/
def big_endian_word (inbuf : Nat → Nat) : Nat :=
  (inbuf 1 <<< 24) ||| (inbuf 2 <<< 16) ||| (inbuf 3 <<< 8) ||| inbuf 4

/-- A receive buffer holding the bytes `b0 .. b4`. -/
def packet (b0 b1 b2 b3 b4 : Nat) : Nat → Nat :=
  fun i => match i with
    | 0 => b0
    | 1 => b1
    | 2 => b2
    | 3 => b3
    | _ => b4

end MotorDrivers

namespace Stepping

/-- Axis 1 holds a motor and axis 0 none: both axes are active and axis 0 has
no occupied slot. -/
def empty_axis_0 : State := (assignMotor 9 1 0 16 false 17 false State.initial).1

/-- The configuration `one_motor` with every accumulator at `INT_MAX`. -/
def one_motor_at_int_max : State := { one_motor with axis_steps := fun _ => 2147483647 }

/-- Two motors on axis 0, one limited and one blocked, with every accumulator
at `INT_MIN`. -/
def suppressed_at_int_min : State :=
  { limit 0 0 two_motors_one_blocked with axis_steps := fun _ => -2147483648 }

/-! ## Loop and phase characterisations -/

theorem State.ext_fields {s t : State} (h1 : s.n_active_axes = t.n_active_axes)
    (h2 : s.axis_motors = t.axis_motors) (h3 : s.axis_steps = t.axis_steps)
    (h4 : s.previous_dir_mask = t.previous_dir_mask) : s = t := by
  cases s; cases t; simp_all

theorem for_loop_succ {σ : Type} (k : Nat) (body : Nat → σ → σ) (s : σ) :
    for_loop (k + 1) body s = body k (for_loop k body s) := rfl

theorem for_loop_emit (f : State → Nat → List Call) (body : Nat → Run → Run)
    (hbody : ∀ i r, body i r = (r.1, r.2 ++ f r.1 i)) (n : Nat) (r : Run) :
    for_loop n body r = (r.1, r.2 ++ (List.range n).flatMap (f r.1)) := by
  induction n with
  | zero => simp [for_loop]
  | succ k ih =>
    rw [for_loop_succ, ih, hbody]
    simp [List.range_succ, List.flatMap_append]

theorem flatMap_option_map {α β γ : Type} (f : α → Option β) (g : β → γ) (h : α → List γ)
    (hn : ∀ i, f i = none → h i = []) (hs : ∀ i m, f i = some m → h i = [g m]) (l : List α) :
    l.flatMap h = (l.filterMap f).map g := by
  induction l with
  | nil => rfl
  | cons a l ih =>
    rw [List.flatMap_cons, ih]
    cases hf : f a with
    | none => simp [List.filterMap_cons, hf, hn a hf]
    | some m => simp [List.filterMap_cons, hf, hs a m hf]

theorem flatMap_option_filter_map {α β γ : Type} (f : α → Option β) (c : β → Bool) (g : β → γ)
    (h : α → List γ) (hn : ∀ i, f i = none → h i = [])
    (hs : ∀ i m, f i = some m → h i = if c m then [g m] else []) (l : List α) :
    l.flatMap h = ((l.filterMap f).filter c).map g := by
  induction l with
  | nil => rfl
  | cons a l ih =>
    rw [List.flatMap_cons, ih]
    cases hf : f a with
    | none => simp [List.filterMap_cons, hf, hn a hf]
    | some m => cases hc : c m <;> simp [List.filterMap_cons, hf, hs a m hf, hc, List.filter_cons]

theorem set_dir_pins_eq (M axis : Nat) (dir : Bool) (r : Run) :
    set_dir_pins M axis dir r =
      (r.1, r.2 ++ (axis_slots M r.1 axis).map
        (fun m => Call.set_dir_pin m.dir_pin (xor dir m.dir_invert))) := by
  unfold set_dir_pins axis_slots
  rw [for_loop_emit (fun s motor => match s.axis_motors axis motor with
        | some m => [Call.set_dir_pin m.dir_pin (xor dir m.dir_invert)]
        | none => [])]
  · rw [flatMap_option_map (r.1.axis_motors axis)
      (fun m => Call.set_dir_pin m.dir_pin (xor dir m.dir_invert))]
    · intro i hi; simp [hi]
    · intro i m hi; simp [hi]
  · intro i r
    cases h : r.1.axis_motors axis i <;> simp [call, h]

theorem set_step_pins_eq (M axis : Nat) (r : Run) :
    set_step_pins M axis r =
      (r.1, r.2 ++ ((axis_slots M r.1 axis).filter (fun m => !m.blocked && !m.limited)).map
        (fun m => Call.set_step_pin m.step_pin (!m.step_invert))) := by
  unfold set_step_pins axis_slots
  rw [for_loop_emit (fun s motor => match s.axis_motors axis motor with
        | some m =>
          if !m.blocked && !m.limited then [Call.set_step_pin m.step_pin (!m.step_invert)] else []
        | none => [])]
  · rw [flatMap_option_filter_map (r.1.axis_motors axis)
      (fun m => !m.blocked && !m.limited) (fun m => Call.set_step_pin m.step_pin (!m.step_invert))]
    · intro i hi; simp [hi]
    · intro i m hi; simp [hi]
  · intro i r
    cases h : r.1.axis_motors axis i with
    | none => simp [h]
    | some m => cases hc : (!m.blocked && !m.limited) <;> simp [call, h, hc]

theorem dir_phase_eq (M dm : Nat) (r : Run) :
    dir_phase M dm r =
      if dm ≠ r.1.previous_dir_mask then
        ({ r.1 with previous_dir_mask := dm },
          r.2 ++ (List.range r.1.n_active_axes).flatMap
            (axis_dir_calls M r.1 dm r.1.previous_dir_mask))
      else r := by
  unfold dir_phase
  split
  · rw [for_loop_emit (fun s axis => axis_dir_calls M s dm s.previous_dir_mask axis)]
    intro i r
    by_cases h : bitnum_is_true dm i = bitnum_is_true r.1.previous_dir_mask i
    · simp [axis_dir_calls, h, call]
    · simp [axis_dir_calls, h, call, set_dir_pins_eq]
  · rfl

theorem step_phase_loop (M sm dm : Nat) (r : Run) (k : Nat) :
    for_loop k (fun axis r =>
      if bitnum_is_true sm axis then
        let increment : Int := if bitnum_is_true dm axis then -1 else 1
        let r : Run :=
          ({ r.1 with
              axis_steps := Function.update r.1.axis_steps axis
                (to_int32 (r.1.axis_steps axis + increment)) }, r.2)
        set_step_pins M axis r
      else r) r =
    ({ r.1 with axis_steps := fun a =>
        if a < k ∧ bitnum_is_true sm a = true then
          to_int32 (r.1.axis_steps a + (if bitnum_is_true dm a then -1 else 1))
        else r.1.axis_steps a },
      r.2 ++ (List.range k).flatMap (axis_step_calls M r.1 sm)) := by
  induction k with
  | zero => simp [for_loop]
  | succ k ih =>
    rw [for_loop_succ, ih]
    by_cases hb : bitnum_is_true sm k = true
    · simp only [hb, if_true, set_step_pins_eq, List.range_succ, List.flatMap_append,
        List.flatMap_singleton, axis_step_calls, axis_slots, List.append_assoc]
      refine Prod.ext (State.ext_fields rfl rfl ?_ rfl) ?_
      · funext a
        by_cases ha : a = k
        · subst ha; simp [hb]
        · simp [Function.update, ha]
          by_cases hlt : a < k
          · simp [hlt, Nat.lt_succ_of_lt hlt]
          · have : ¬ a < k + 1 := by omega
            simp [hlt, this]
      · simp
    · simp only [hb, List.range_succ, List.flatMap_append, List.flatMap_singleton,
        axis_step_calls]
      refine Prod.ext (State.ext_fields rfl rfl ?_ rfl) ?_
      · funext a
        by_cases ha : a = k
        · subst ha; simp [hb]
        · by_cases hlt : a < k
          · simp [hlt, Nat.lt_succ_of_lt hlt]
          · have : ¬ a < k + 1 := by omega
            simp [hlt, this]
      · simp

theorem step_phase_eq (M sm dm : Nat) (r : Run) :
    step_phase M sm dm r =
      ({ r.1 with axis_steps := stepped r.1 sm dm },
        r.2 ++ (List.range r.1.n_active_axes).flatMap (axis_step_calls M r.1 sm)) := by
  unfold step_phase
  rw [step_phase_loop]
  rfl

theorem step_eq (M sm dm : Nat) (st : State) :
    step M sm dm st =
      ({ n_active_axes := st.n_active_axes
         axis_motors := st.axis_motors
         axis_steps := stepped st (to_uint8 sm) (to_uint8 dm)
         previous_dir_mask := to_uint8 dm },
        dir_calls M st (to_uint8 dm) ++ step_calls M st (to_uint8 sm) ++ [Call.finish_step]) := by
  unfold step
  simp only [dir_phase_eq, step_phase_eq, call, dir_calls, step_calls, compared_mask]
  by_cases h255 : st.previous_dir_mask = 255
  · by_cases hne : to_uint8 dm = not_uint8 (to_uint8 dm)
    · simp only [h255, if_true, ← hne, ne_eq, not_true_eq_false, if_false, List.nil_append]
      rfl
    · simp only [h255, if_true, hne, ne_eq, not_false_eq_true, List.nil_append, List.append_assoc]
      rfl
  · by_cases hne : to_uint8 dm = st.previous_dir_mask
    · simp only [h255, hne, if_false, ne_eq, not_true_eq_false, List.nil_append]
    · simp only [h255, if_false, hne, ne_eq, not_false_eq_true, if_true, List.nil_append,
        List.append_assoc]
      rfl

theorem to_uint8_of_lt {x : Nat} (h : x < 256) : to_uint8 x = x := by
  unfold to_uint8; omega

theorem to_uint8_lt (x : Nat) : to_uint8 x < 256 := by
  unfold to_uint8; omega

theorem not_uint8_eq {x : Nat} (h : x < 256) : not_uint8 x = 255 - x := by
  unfold not_uint8; omega

theorem not_uint8_ne {x : Nat} (h : x < 256) : x ≠ not_uint8 x := by
  rw [not_uint8_eq h]; omega

theorem bitnum_not_uint8 {x i : Nat} (h : x < 256) (hi : i < 8) :
    bitnum_is_true (not_uint8 x) i = !bitnum_is_true x i := by
  have h2 : x < 2 ^ 8 := by simpa using h
  have := Nat.testBit_two_pow_sub_succ h2 i
  rw [not_uint8_eq h]
  simpa [bitnum_is_true, hi] using this

theorem to_int32_of_range {x : Int} (h1 : -2147483648 ≤ x) (h2 : x ≤ 2147483647) :
    to_int32 x = x := by
  unfold to_int32; omega

theorem filterMap_some_fun {α β : Type} (f : α → β) (l : List α) :
    l.filterMap (fun x => some (f x)) = l.map f := by
  induction l with
  | nil => rfl
  | cons a l ih => simp [List.filterMap_cons, ih]

theorem dir_writes_axis_dir_calls (M : Nat) (st : State) (dm prev axis : Nat) :
    dir_writes (axis_dir_calls M st dm prev axis) =
      if bitnum_is_true dm axis ≠ bitnum_is_true prev axis then
        (axis_slots M st axis).map
          (fun m => (m.dir_pin, xor (bitnum_is_true dm axis) m.dir_invert))
      else [] := by
  unfold dir_writes axis_dir_calls
  split <;> simp [List.filterMap_map, Function.comp_def, filterMap_some_fun]

theorem dir_writes_axis_step_calls (M : Nat) (st : State) (sm axis : Nat) :
    dir_writes (axis_step_calls M st sm axis) = [] := by
  unfold dir_writes axis_step_calls
  split <;> simp [List.filterMap_map, Function.comp_def]

theorem dir_writes_append (s t : List Call) : dir_writes (s ++ t) = dir_writes s ++ dir_writes t := by
  simp [dir_writes]

theorem dir_writes_flatMap (l : List Nat) (g : Nat → List Call) :
    dir_writes (l.flatMap g) = l.flatMap (fun a => dir_writes (g a)) := by
  induction l with
  | nil => rfl
  | cons a l ih => simp [List.flatMap_cons, dir_writes_append, ih]

theorem flatMap_nil_of_forall {α β : Type} (l : List α) (g : α → List β) (h : ∀ a ∈ l, g a = []) :
    l.flatMap g = [] := by
  induction l with
  | nil => rfl
  | cons a l ih =>
    rw [List.flatMap_cons, h a (List.mem_cons_self a l), ih (fun b hb => h b (List.mem_cons_of_mem a hb))]
    rfl

theorem flatMap_congr_mem {α β : Type} (l : List α) (g h : α → List β) (hgh : ∀ a ∈ l, g a = h a) :
    l.flatMap g = l.flatMap h := by
  induction l with
  | nil => rfl
  | cons a l ih =>
    rw [List.flatMap_cons, List.flatMap_cons, hgh a (List.mem_cons_self a l),
      ih (fun b hb => hgh b (List.mem_cons_of_mem a hb))]

theorem dir_writes_step (M sm dm : Nat) (st : State) :
    dir_writes (step M sm dm st).2 =
      changed_dir_writes M st (compared_mask st (to_uint8 dm)) (to_uint8 dm) := by
  rw [step_eq]
  simp only [dir_writes_append, step_calls, dir_writes_flatMap, dir_writes_axis_step_calls]
  have h0 : dir_writes [Call.finish_step] = [] := rfl
  rw [h0, flatMap_nil_of_forall _ _ (fun _ _ => rfl), List.append_nil, List.append_nil]
  unfold dir_calls changed_dir_writes
  split
  · simp only [dir_writes_flatMap, dir_writes_axis_dir_calls]
  · rename_i h
    have h : to_uint8 dm = compared_mask st (to_uint8 dm) := by simpa using h
    rw [← h]
    simp [dir_writes]

theorem step_writes_append (s t : List Call) :
    step_writes (s ++ t) = step_writes s ++ step_writes t := by
  simp [step_writes]

theorem step_writes_flatMap (l : List Nat) (g : Nat → List Call) :
    step_writes (l.flatMap g) = l.flatMap (fun a => step_writes (g a)) := by
  induction l with
  | nil => rfl
  | cons a l ih => simp [List.flatMap_cons, step_writes_append, ih]

theorem step_writes_axis_dir_calls (M : Nat) (st : State) (dm prev axis : Nat) :
    step_writes (axis_dir_calls M st dm prev axis) = [] := by
  unfold step_writes axis_dir_calls
  split <;> simp [List.filterMap_map, Function.comp_def]

theorem step_writes_axis_step_calls (M : Nat) (st : State) (sm axis : Nat) :
    step_writes (axis_step_calls M st sm axis) =
      if bitnum_is_true sm axis then
        ((axis_slots M st axis).filter (fun m => !m.blocked && !m.limited)).map
          (fun m => (m.step_pin, !m.step_invert))
      else [] := by
  unfold step_writes axis_step_calls
  split <;> simp [List.filterMap_map, Function.comp_def, filterMap_some_fun]

theorem step_writes_step (M sm dm : Nat) (st : State) :
    step_writes (step M sm dm st).2 = asserted_step_writes M st (to_uint8 sm) := by
  rw [step_eq]
  have h0 : step_writes [Call.finish_step] = [] := rfl
  have h1 : step_writes (dir_calls M st (to_uint8 dm)) = [] := by
    unfold dir_calls
    split
    · rw [step_writes_flatMap]
      exact flatMap_nil_of_forall _ _ (fun a _ => step_writes_axis_dir_calls M st _ _ a)
    · rfl
  simp only [step_writes_append, h0, h1, List.nil_append, List.append_nil, step_calls,
    step_writes_flatMap, step_writes_axis_step_calls]
  rfl

theorem mem_step_writes (t : List Call) (p : Int) (l : Bool) :
    (p, l) ∈ step_writes t ↔ Call.set_step_pin p l ∈ t := by
  unfold step_writes
  rw [List.mem_filterMap]
  constructor
  · rintro ⟨c, hc, h⟩
    cases c <;> simp at h
    obtain ⟨h1, h2⟩ := h
    subst h1; subst h2
    exact hc
  · intro h
    exact ⟨_, h, rfl⟩

theorem mem_axis_slots (M : Nat) (st : State) (axis : Nat) (mot : motor_t) :
    mot ∈ axis_slots M st axis ↔ ∃ m, m < M ∧ st.axis_motors axis m = some mot := by
  simp [axis_slots, List.mem_filterMap, List.mem_range]

theorem mem_asserted_step_writes (M : Nat) (st : State) (sm : Nat) (p : Int) (l : Bool) :
    (p, l) ∈ asserted_step_writes M st sm ↔
      ∃ a m mot, a < st.n_active_axes ∧ bitnum_is_true sm a = true ∧ m < M ∧
        st.axis_motors a m = some mot ∧ mot.blocked = false ∧ mot.limited = false ∧
        mot.step_pin = p ∧ l = !mot.step_invert := by
  unfold asserted_step_writes
  rw [List.mem_flatMap]
  constructor
  · rintro ⟨a, ha, h⟩
    rw [List.mem_range] at ha
    split at h
    · rename_i hb
      rw [List.mem_map] at h
      obtain ⟨mot, hmot, heq⟩ := h
      rw [List.mem_filter, mem_axis_slots] at hmot
      obtain ⟨⟨m, hm, hocc⟩, hflags⟩ := hmot
      simp at hflags
      simp at heq
      exact ⟨a, m, mot, ha, hb, hm, hocc, hflags.1, hflags.2, heq.1, by rw [heq.2]; simp⟩
    · simp at h
  · rintro ⟨a, m, mot, ha, hb, hm, hocc, hbl, hli, hp, hl⟩
    refine ⟨a, List.mem_range.mpr ha, ?_⟩
    rw [if_pos hb, List.mem_map]
    refine ⟨mot, ?_, ?_⟩
    · rw [List.mem_filter, mem_axis_slots]
      exact ⟨⟨m, hm, hocc⟩, by simp [hbl, hli]⟩
    · simp [hp, hl]

theorem unstep_eq (M : Nat) (self_managed : Bool) (st : State) :
    unstep M self_managed st =
      if self_managed then (st, [Call.start_unstep])
      else (st, [Call.start_unstep] ++ unstep_calls M st ++ [Call.finish_unstep]) := by
  unfold unstep
  cases self_managed
  · simp only [Bool.false_eq_true, if_false]
    rw [for_loop_emit (fun s axis =>
      (axis_slots M s axis).map (fun m => Call.set_step_pin m.step_pin m.step_invert))]
    · simp [call, unstep_calls]
    · intro a r
      rw [for_loop_emit (fun s motor => match s.axis_motors a motor with
        | some m => [Call.set_step_pin m.step_pin m.step_invert]
        | none => [])]
      · rw [flatMap_option_map (r.1.axis_motors a)
          (fun m => Call.set_step_pin m.step_pin m.step_invert)]
        · rfl
        · intro i hi; simp [hi]
        · intro i m hi; simp [hi]
      · intro i r
        cases h : r.1.axis_motors a i <;> simp [call, h]
  · simp [call]

theorem step_n_active_axes (M sm dm : Nat) (st : State) :
    (step M sm dm st).1.n_active_axes = st.n_active_axes := by
  rw [step_eq]

theorem step_axis_motors (M sm dm : Nat) (st : State) :
    (step M sm dm st).1.axis_motors = st.axis_motors := by
  rw [step_eq]

theorem step_previous_dir_mask (M sm dm : Nat) (st : State) :
    (step M sm dm st).1.previous_dir_mask = to_uint8 dm := by
  rw [step_eq]

theorem changed_dir_writes_eq_slot_writes (M : Nat) (st : State) (prev dm : Nat) :
    changed_dir_writes M st prev dm =
      slot_writes M st (fun a => bitnum_is_true dm a != bitnum_is_true prev a) (fun _ => true)
        (fun a m => (m.dir_pin, xor (bitnum_is_true dm a) m.dir_invert)) := by
  unfold changed_dir_writes slot_writes
  apply flatMap_congr_mem
  intro a _
  by_cases h : bitnum_is_true dm a = bitnum_is_true prev a <;> simp [h]

theorem all_dir_writes_eq_slot_writes (M : Nat) (st : State) (dm : Nat) :
    all_dir_writes M st dm =
      slot_writes M st (fun _ => true) (fun _ => true)
        (fun a m => (m.dir_pin, xor (bitnum_is_true dm a) m.dir_invert)) := by
  unfold all_dir_writes slot_writes
  apply flatMap_congr_mem
  intro a _
  simp

theorem changed_dir_writes_not_uint8 (M : Nat) (st : State) (dm : Nat) (hd : dm < 256)
    (haxes : st.n_active_axes ≤ 8) :
    changed_dir_writes M st (not_uint8 dm) dm = all_dir_writes M st dm := by
  unfold changed_dir_writes all_dir_writes
  apply flatMap_congr_mem
  intro a ha
  rw [List.mem_range] at ha
  rw [bitnum_not_uint8 hd (by omega)]
  cases bitnum_is_true dm a <;> simp

theorem changed_dir_writes_congr (M : Nat) (st st2 : State) (prev dm : Nat)
    (hn : st2.n_active_axes = st.n_active_axes) (ht : st2.axis_motors = st.axis_motors) :
    changed_dir_writes M st2 prev dm = changed_dir_writes M st prev dm := by
  unfold changed_dir_writes axis_slots
  rw [hn, ht]

theorem all_dir_writes_congr (M : Nat) (st st2 : State) (dm : Nat)
    (hn : st2.n_active_axes = st.n_active_axes) (ht : st2.axis_motors = st.axis_motors) :
    all_dir_writes M st2 dm = all_dir_writes M st dm := by
  unfold all_dir_writes axis_slots
  rw [hn, ht]

theorem dir_writes_first_step (M sm dm : Nat) (st : State) (hd : dm < 256)
    (hfirst : st.previous_dir_mask = 255) (haxes : st.n_active_axes ≤ 8) :
    dir_writes (step M sm dm st).2 = all_dir_writes M st dm := by
  rw [dir_writes_step, to_uint8_of_lt hd]
  unfold compared_mask
  rw [if_pos hfirst, changed_dir_writes_not_uint8 M st dm hd haxes]

theorem dir_writes_next_step (M sm dm : Nat) (st : State) (hd : dm < 256)
    (hprev : st.previous_dir_mask ≠ 255) :
    dir_writes (step M sm dm st).2 = changed_dir_writes M st st.previous_dir_mask dm := by
  rw [dir_writes_step, to_uint8_of_lt hd]
  unfold compared_mask
  rw [if_neg hprev]

theorem unshared_dir_pin_others (M : Nat) (st : State) (a m : Nat) (pin : Int)
    (hun : dir_pin_unshared M st a m pin) (a2 m2 : Nat) (mot2 : motor_t)
    (ha2 : a2 < st.n_active_axes) (hm2 : m2 < M) (hocc2 : st.axis_motors a2 m2 = some mot2)
    (hpin : mot2.dir_pin = pin) : a2 = a ∧ m2 = m :=
  hun a2 ha2 m2 hm2 (by simp [hocc2, hpin])

theorem unshared_step_pin_others (M : Nat) (st : State) (a m : Nat) (pin : Int)
    (hun : step_pin_unshared M st a m pin) (a2 m2 : Nat) (mot2 : motor_t)
    (ha2 : a2 < st.n_active_axes) (hm2 : m2 < M) (hocc2 : st.axis_motors a2 m2 = some mot2)
    (hpin : mot2.step_pin = pin) : a2 = a ∧ m2 = m :=
  hun a2 ha2 m2 hm2 (by simp [hocc2, hpin])

theorem countP_flatMap_range_single {β : Type} (P : β → Bool) (g : Nat → List β) (a n : Nat)
    (ha : a < n) (h : ∀ i, i < n → i ≠ a → ∀ x ∈ g i, P x = false) :
    ((List.range n).flatMap g).countP P = (g a).countP P := by
  induction n with
  | zero => omega
  | succ k ih =>
    rw [List.range_succ, List.flatMap_append, List.countP_append, List.flatMap_singleton]
    by_cases hak : a = k
    · subst hak
      have hz : ((List.range a).flatMap g).countP P = 0 := by
        rw [List.countP_eq_zero]
        intro x hx
        rw [List.mem_flatMap] at hx
        obtain ⟨i, hi, hxi⟩ := hx
        rw [List.mem_range] at hi
        simp [h i (by omega) (by omega) x hxi]
      rw [hz, Nat.zero_add]
    · have hlt : a < k := by omega
      rw [ih hlt (fun i hi hia => h i (by omega) hia)]
      have hz : (g k).countP P = 0 := by
        rw [List.countP_eq_zero]
        intro x hx
        simp [h k (by omega) (fun e => hak e.symm) x hx]
      rw [hz, Nat.add_zero]

theorem mem_slot_writes (M : Nat) (st : State) (sel : Nat → Bool) (keep : motor_t → Bool)
    (out : Nat → motor_t → Int × Bool) (w : Int × Bool) :
    w ∈ slot_writes M st sel keep out ↔
      ∃ a m mot, a < st.n_active_axes ∧ sel a = true ∧ m < M ∧
        st.axis_motors a m = some mot ∧ keep mot = true ∧ out a mot = w := by
  unfold slot_writes
  rw [List.mem_flatMap]
  constructor
  · rintro ⟨a, ha, h⟩
    rw [List.mem_range] at ha
    split at h
    · rename_i hb
      rw [List.mem_map] at h
      obtain ⟨mot, hmot, heq⟩ := h
      rw [List.mem_filter, mem_axis_slots] at hmot
      obtain ⟨⟨m, hm, hocc⟩, hkeep⟩ := hmot
      exact ⟨a, m, mot, ha, hb, hm, hocc, hkeep, heq⟩
    · simp at h
  · rintro ⟨a, m, mot, ha, hb, hm, hocc, hkeep, hw⟩
    refine ⟨a, List.mem_range.mpr ha, ?_⟩
    rw [if_pos hb, List.mem_map]
    exact ⟨mot, by rw [List.mem_filter, mem_axis_slots]; exact ⟨⟨m, hm, hocc⟩, hkeep⟩, hw⟩

theorem countP_slot_writes_eq_one (M : Nat) (st : State) (sel : Nat → Bool)
    (keep : motor_t → Bool) (out : Nat → motor_t → Int × Bool) (P : Int × Bool → Bool)
    (a m : Nat) (mot : motor_t) (ha : a < st.n_active_axes) (hsel : sel a = true) (hm : m < M)
    (hocc : st.axis_motors a m = some mot) (hkeep : keep mot = true)
    (hP : P (out a mot) = true)
    (hothers : ∀ a2 m2 mot2, a2 < st.n_active_axes → m2 < M →
      st.axis_motors a2 m2 = some mot2 → P (out a2 mot2) = true → a2 = a ∧ m2 = m) :
    (slot_writes M st sel keep out).countP P = 1 := by
  unfold slot_writes
  rw [countP_flatMap_range_single P _ a _ ha]
  · rw [if_pos hsel]
    unfold axis_slots
    rw [← flatMap_option_filter_map (st.axis_motors a) keep (out a)
      (fun i => match st.axis_motors a i with
        | some x => if keep x then [out a x] else []
        | none => [])
      (fun i hi => by simp [hi]) (fun i x hi => by simp [hi])]
    rw [countP_flatMap_range_single P _ m _ hm]
    · simp [hocc, hkeep, hP]
    · intro i hi hne x hx
      cases hs : st.axis_motors a i with
      | none => simp [hs] at hx
      | some mot2 =>
        simp only [hs] at hx
        split at hx
        · simp at hx
          subst hx
          by_contra hc
          have hc2 : P (out a mot2) = true := by simpa using hc
          exact hne (hothers a i mot2 ha hi hs hc2).2
        · simp at hx
  · intro i hi hne x hx
    split at hx
    · rw [List.mem_map] at hx
      obtain ⟨mot2, hmot2, heq⟩ := hx
      rw [List.mem_filter, mem_axis_slots] at hmot2
      obtain ⟨⟨m2, hm2, hocc2⟩, _⟩ := hmot2
      subst heq
      by_contra hc
      have hc2 : P (out i mot2) = true := by simpa using hc
      exact hne (hothers i m2 mot2 hi hm2 hocc2 hc2).1
    · simp at hx

theorem asserted_step_writes_eq_slot_writes (M : Nat) (st : State) (sm : Nat) :
    asserted_step_writes M st sm =
      slot_writes M st (fun a => bitnum_is_true sm a) (fun m => !m.blocked && !m.limited)
        (fun _ m => (m.step_pin, !m.step_invert)) := rfl

theorem released_step_writes_eq_slot_writes (M : Nat) (st : State) :
    released_step_writes M st =
      slot_writes M st (fun _ => true) (fun _ => true)
        (fun _ m => (m.step_pin, m.step_invert)) := by
  unfold released_step_writes slot_writes
  apply flatMap_congr_mem
  intro a _
  simp

theorem step_writes_unstep_calls (M : Nat) (st : State) :
    step_writes (unstep_calls M st) = released_step_writes M st := by
  unfold unstep_calls released_step_writes
  rw [step_writes_flatMap]
  apply flatMap_congr_mem
  intro a _
  simp [step_writes, List.filterMap_map, Function.comp_def, filterMap_some_fun]

theorem step_writes_unstep (M : Nat) (st : State) :
    step_writes (unstep M false st).2 = released_step_writes M st := by
  rw [unstep_eq]
  simp only [Bool.false_eq_true, if_false, step_writes_append, step_writes_unstep_calls]
  have h0 : step_writes [Call.start_unstep] = [] := rfl
  have h1 : step_writes [Call.finish_unstep] = [] := rfl
  rw [h0, h1, List.nil_append, List.append_nil]

theorem write_count_asserted_eq_zero (M : Nat) (st : State) (sm : Nat) (a m : Nat)
    (mot : motor_t) (hocc : st.axis_motors a m = some mot)
    (hsup : mot.blocked = true ∨ mot.limited = true)
    (hun : step_pin_unshared M st a m mot.step_pin) :
    write_count (asserted_step_writes M st sm) mot.step_pin = 0 := by
  unfold write_count
  rw [List.countP_eq_zero, asserted_step_writes_eq_slot_writes]
  intro w hw
  rw [mem_slot_writes] at hw
  obtain ⟨a2, m2, mot2, ha2, _, hm2, hocc2, hkeep, hout⟩ := hw
  intro hpin
  have hpin2 : mot2.step_pin = mot.step_pin := by
    have := congrArg Prod.fst hout
    simp at this hpin
    rw [this, hpin]
  obtain ⟨e1, e2⟩ := unshared_step_pin_others M st a m _ hun a2 m2 mot2 ha2 hm2 hocc2 hpin2
  subst e1; subst e2
  rw [hocc] at hocc2
  cases hocc2
  rcases hsup with h | h <;> simp [h] at hkeep

theorem write_count_asserted_eq_one (M : Nat) (st : State) (sm : Nat) (a m : Nat)
    (mot : motor_t) (ha : a < st.n_active_axes) (hm : m < M)
    (hocc : st.axis_motors a m = some mot) (hbl : mot.blocked = false)
    (hli : mot.limited = false) (hbit : bitnum_is_true sm a = true)
    (hun : step_pin_unshared M st a m mot.step_pin) :
    write_count (asserted_step_writes M st sm) mot.step_pin = 1 := by
  unfold write_count
  rw [asserted_step_writes_eq_slot_writes]
  apply countP_slot_writes_eq_one M st _ _ _ _ a m mot ha hbit hm hocc (by simp [hbl, hli])
    (by simp)
  intro a2 m2 mot2 ha2 hm2 hocc2 hP
  exact unshared_step_pin_others M st a m _ hun a2 m2 mot2 ha2 hm2 hocc2 (by simpa using hP)

theorem mem_asserted_of_eligible (M : Nat) (st : State) (sm : Nat) (a m : Nat)
    (mot : motor_t) (ha : a < st.n_active_axes) (hm : m < M)
    (hocc : st.axis_motors a m = some mot) (hbl : mot.blocked = false)
    (hli : mot.limited = false) (hbit : bitnum_is_true sm a = true) :
    (mot.step_pin, !mot.step_invert) ∈ asserted_step_writes M st sm := by
  rw [mem_asserted_step_writes]
  exact ⟨a, m, mot, ha, hbit, hm, hocc, hbl, hli, rfl, rfl⟩

theorem unlimit_n_active_axes (a m : Nat) (st : State) :
    (unlimit a m st).n_active_axes = st.n_active_axes := by
  unfold unlimit
  cases st.axis_motors a m <;> rfl

theorem unlimit_slot (a m : Nat) (st : State) (mot : motor_t)
    (hocc : st.axis_motors a m = some mot) :
    (unlimit a m st).axis_motors a m = some { mot with limited := false } := by
  unfold unlimit
  simp [hocc, set_motor]

theorem unlimit_step_pin (a m : Nat) (st : State) (a2 m2 : Nat) :
    ((unlimit a m st).axis_motors a2 m2).map motor_t.step_pin =
      (st.axis_motors a2 m2).map motor_t.step_pin := by
  unfold unlimit
  cases hocc : st.axis_motors a m with
  | none => rfl
  | some mot =>
    by_cases h : a2 = a ∧ m2 = m
    · obtain ⟨e1, e2⟩ := h
      subst e1; subst e2
      simp [set_motor, hocc]
    · simp [set_motor, h]

theorem unlimit_step_pin_unshared (M : Nat) (st : State) (a m : Nat) (pin : Int)
    (hun : step_pin_unshared M st a m pin) :
    step_pin_unshared M (unlimit a m st) a m pin := by
  intro a2 ha2 m2 hm2 hpin
  rw [unlimit_n_active_axes] at ha2
  rw [unlimit_step_pin] at hpin
  exact hun a2 ha2 m2 hm2 hpin

theorem released_step_writes_congr (M : Nat) (st st2 : State)
    (hn : st2.n_active_axes = st.n_active_axes) (ht : st2.axis_motors = st.axis_motors) :
    released_step_writes M st2 = released_step_writes M st := by
  unfold released_step_writes axis_slots
  rw [hn, ht]

theorem mem_released_step_writes (M : Nat) (st : State) (a m : Nat) (mot : motor_t)
    (ha : a < st.n_active_axes) (hm : m < M) (hocc : st.axis_motors a m = some mot) :
    (mot.step_pin, mot.step_invert) ∈ released_step_writes M st := by
  rw [released_step_writes_eq_slot_writes, mem_slot_writes]
  exact ⟨a, m, mot, ha, rfl, hm, hocc, rfl, rfl⟩

theorem mem_unstep_calls (M : Nat) (st : State) (c : Call) (hc : c ∈ unstep_calls M st) :
    ∃ p l, c = Call.set_step_pin p l := by
  unfold unstep_calls at hc
  rw [List.mem_flatMap] at hc
  obtain ⟨a, _, h⟩ := hc
  rw [List.mem_map] at h
  obtain ⟨mot, _, rfl⟩ := h
  exact ⟨_, _, rfl⟩

theorem filterMap_range_single {β : Type} (f : Nat → Option β) (x : β) (M : Nat) (hM : 0 < M)
    (h0 : f 0 = some x) (hrest : ∀ i, 0 < i → f i = none) :
    (List.range M).filterMap f = [x] := by
  induction M with
  | zero => omega
  | succ k ih =>
    rw [List.range_succ, List.filterMap_append]
    by_cases hk : k = 0
    · subst hk
      simp [h0]
    · rw [ih (by omega)]
      simp [hrest k (by omega)]

theorem strncmp_strlen_eq_zero_iff (s2 : c_string) (s1 : c_string) :
    strncmp s1 s2 (strlen s2) = 0 ↔ s2 <+: s1 := by
  induction s2 generalizing s1 with
  | nil => simp [strlen, strncmp]
  | cons y t2 ih =>
    cases s1 with
    | nil => simp [strlen, strncmp]
    | cons x t1 =>
      have ih2 := ih t1
      unfold strlen at ih2
      by_cases hxy : x = y
      · subst hxy
        simp [strlen, strncmp, ih2]
      · have hyx : ¬ y = x := fun e => hxy e.symm
        by_cases hlt : x.toNat < y.toNat <;> simp [strlen, strncmp, hxy, hyx, hlt]

theorem find_engine_cons (p : step_engine_t) (link : List step_engine_t) (name : c_string) :
    find_engine (p :: link) name =
      if p.name <+: name then some p else find_engine link name := by
  by_cases h : p.name <+: name
  · simp [find_engine, (strncmp_strlen_eq_zero_iff p.name name).mpr h, h]
  · have h2 : ¬ strncmp name p.name (strlen p.name) = 0 :=
      fun e => h ((strncmp_strlen_eq_zero_iff p.name name).mp e)
    simp [find_engine, h2, h]

theorem find_engine_eq_none_iff (reg : List step_engine_t) (name : c_string) :
    find_engine reg name = none ↔ ∀ p ∈ reg, ¬ p.name <+: name := by
  induction reg with
  | nil => simp [find_engine]
  | cons p link ih =>
    rw [find_engine_cons]
    by_cases h : p.name <+: name
    · simp [h]
    · simp [h, ih]

theorem find_engine_eq_some (reg : List step_engine_t) (name : c_string) (p : step_engine_t)
    (h : find_engine reg name = some p) :
    ∃ pre post, reg = pre ++ p :: post ∧ p.name <+: name ∧ ∀ q ∈ pre, ¬ q.name <+: name := by
  induction reg with
  | nil => simp [find_engine] at h
  | cons q link ih =>
    rw [find_engine_cons] at h
    by_cases hq : q.name <+: name
    · rw [if_pos hq] at h
      cases h
      exact ⟨[], link, rfl, hq, by simp⟩
    · rw [if_neg hq] at h
      obtain ⟨pre, post, e, hp, hpre⟩ := ih h
      refine ⟨q :: pre, post, by rw [e]; rfl, hp, ?_⟩
      intro r hr
      rcases List.mem_cons.mp hr with e2 | hr2
      · rw [e2]; exact hq
      · exact hpre r hr2

theorem count_flatMap_range_const (g : Nat → List Call) (c : Call) (k n : Nat)
    (h : ∀ i, (g i).count c = k) : ((List.range n).flatMap g).count c = n * k := by
  induction n with
  | zero => simp
  | succ m ih =>
    rw [List.range_succ, List.flatMap_append, List.count_append, ih, List.flatMap_singleton, h,
      Nat.succ_mul]

theorem count_finish_dir_axis_dir_calls (M : Nat) (st : State) (dm prev axis : Nat) :
    (axis_dir_calls M st dm prev axis).count Call.finish_dir = 1 := by
  unfold axis_dir_calls
  rw [List.count_append]
  have h0 : ∀ l : List motor_t, (l.map (fun m =>
      Call.set_dir_pin m.dir_pin (xor (bitnum_is_true dm axis) m.dir_invert))).count
        Call.finish_dir = 0 := by
    intro l
    rw [List.count_eq_zero]
    intro hmem
    rw [List.mem_map] at hmem
    obtain ⟨m, _, hm⟩ := hmem
    cases hm
  split
  · rw [h0]; rfl
  · rfl

theorem count_finish_dir_axis_step_calls (M : Nat) (st : State) (sm axis : Nat) :
    (axis_step_calls M st sm axis).count Call.finish_dir = 0 := by
  unfold axis_step_calls
  rw [List.count_eq_zero]
  intro hmem
  split at hmem
  · rw [List.mem_map] at hmem
    obtain ⟨m, _, hm⟩ := hmem
    cases hm
  · cases hmem

theorem count_finish_dir_step (M sm dm : Nat) (st : State) :
    (step M sm dm st).2.count Call.finish_dir =
      if to_uint8 dm ≠ compared_mask st (to_uint8 dm) then st.n_active_axes else 0 := by
  rw [step_eq]
  simp only [List.count_append, step_calls, dir_calls]
  rw [count_flatMap_range_const _ _ 0 _ (count_finish_dir_axis_step_calls M st (to_uint8 sm))]
  have h0 : [Call.finish_step].count Call.finish_dir = 0 := by decide
  rw [h0]
  split
  · rw [count_flatMap_range_const _ _ 1 _
      (count_finish_dir_axis_dir_calls M st (to_uint8 dm) (compared_mask st (to_uint8 dm)))]
    simp
  · simp

theorem changed_axes_le (st : State) (prev dm : Nat) :
    changed_axes st prev dm ≤ st.n_active_axes := by
  unfold changed_axes
  exact (List.length_filter_le _ _).trans (by simp)

theorem changed_axes_self (st : State) (dm : Nat) : changed_axes st dm dm = 0 := by
  unfold changed_axes
  simp

theorem flag_op_n_active_axes (op : FlagOp) (axis motor : Nat) (st : State) :
    (op.run axis motor st).n_active_axes = st.n_active_axes := by
  cases hocc : st.axis_motors axis motor <;> cases op <;>
    simp [FlagOp.run, block, unblock, limit, unlimit, hocc]

theorem assignMotor_n_active_axes (handle : Int) (axis motor : Nat) (step_pin : Int)
    (step_invert : Bool) (dir_pin : Int) (dir_invert : Bool) (st : State) :
    (assignMotor handle axis motor step_pin step_invert dir_pin dir_invert st).1.n_active_axes =
      max st.n_active_axes (axis + 1) := by
  unfold assignMotor
  by_cases h : axis ≥ st.n_active_axes
  · simp only [h, if_true, call]
    exact (Nat.max_eq_right (by omega)).symm
  · simp only [h, if_false, call]
    exact (Nat.max_eq_left (by omega)).symm

theorem unstep_state (M : Nat) (self_managed : Bool) (st : State) :
    (unstep M self_managed st).1 = st := by
  rw [unstep_eq]
  cases self_managed <;> rfl

theorem op_n_active_axes_le (M : Nat) (op : Op) (st : State) :
    st.n_active_axes ≤ (op.run M st).n_active_axes := by
  cases op with
  | assignMotor handle axis motor step_pin step_invert dir_pin dir_invert =>
    show _ ≤ (assignMotor handle axis motor step_pin step_invert dir_pin dir_invert st).1.n_active_axes
    rw [assignMotor_n_active_axes]
    exact Nat.le_max_left _ _
  | block axis motor => exact Nat.le_of_eq (flag_op_n_active_axes FlagOp.block axis motor st).symm
  | unblock axis motor =>
    exact Nat.le_of_eq (flag_op_n_active_axes FlagOp.unblock axis motor st).symm
  | limit axis motor => exact Nat.le_of_eq (flag_op_n_active_axes FlagOp.limit axis motor st).symm
  | unlimit axis motor =>
    exact Nat.le_of_eq (flag_op_n_active_axes FlagOp.unlimit axis motor st).symm
  | step step_mask dir_mask =>
    exact Nat.le_of_eq (step_n_active_axes M step_mask dir_mask st).symm
  | unstep self_managed =>
    show _ ≤ (unstep M self_managed st).1.n_active_axes
    rw [unstep_state]

theorem op_n_active_axes_bound (N M : Nat) (op : Op) (st : State)
    (hop : op.assigns_in_range N) (hst : st.n_active_axes ≤ N) :
    (op.run M st).n_active_axes ≤ N := by
  cases op with
  | assignMotor handle axis motor step_pin step_invert dir_pin dir_invert =>
    show (assignMotor handle axis motor step_pin step_invert dir_pin dir_invert st).1.n_active_axes ≤ N
    rw [assignMotor_n_active_axes]
    have : axis < N := hop
    exact Nat.max_le.mpr ⟨hst, by omega⟩
  | block axis motor => rw [show (Op.block axis motor).run M st = FlagOp.block.run axis motor st from rfl, flag_op_n_active_axes]; exact hst
  | unblock axis motor => rw [show (Op.unblock axis motor).run M st = FlagOp.unblock.run axis motor st from rfl, flag_op_n_active_axes]; exact hst
  | limit axis motor => rw [show (Op.limit axis motor).run M st = FlagOp.limit.run axis motor st from rfl, flag_op_n_active_axes]; exact hst
  | unlimit axis motor => rw [show (Op.unlimit axis motor).run M st = FlagOp.unlimit.run axis motor st from rfl, flag_op_n_active_axes]; exact hst
  | step step_mask dir_mask =>
    show (step M step_mask dir_mask st).1.n_active_axes ≤ N
    rw [step_n_active_axes]; exact hst
  | unstep self_managed =>
    show (unstep M self_managed st).1.n_active_axes ≤ N
    rw [unstep_state]; exact hst

theorem run_ops_n_active_axes_bound (N M : Nat) (ops : List Op) (st : State)
    (hops : ∀ op ∈ ops, op.assigns_in_range N) (hst : st.n_active_axes ≤ N) :
    (run_ops M ops st).n_active_axes ≤ N := by
  induction ops generalizing st with
  | nil => exact hst
  | cons op rest ih =>
    show (run_ops M rest (op.run M st)).n_active_axes ≤ N
    exact ih (op.run M st) (fun o ho => hops o (List.mem_cons_of_mem op ho))
      (op_n_active_axes_bound N M op st (hops op (List.mem_cons_self op rest)) hst)

theorem mem_dir_calls (M : Nat) (st : State) (dm : Nat) (c : Call)
    (hc : c ∈ dir_calls M st dm) : (∃ p l, c = Call.set_dir_pin p l) ∨ c = Call.finish_dir := by
  unfold dir_calls at hc
  split at hc
  · rw [List.mem_flatMap] at hc
    obtain ⟨a, _, h⟩ := hc
    unfold axis_dir_calls at h
    rw [List.mem_append] at h
    rcases h with h | h
    · split at h
      · rw [List.mem_map] at h
        obtain ⟨m, _, rfl⟩ := h
        exact Or.inl ⟨_, _, rfl⟩
      · cases h
    · exact Or.inr (List.mem_singleton.mp h)
  · cases hc

theorem mem_step_calls (M : Nat) (st : State) (sm : Nat) (c : Call)
    (hc : c ∈ step_calls M st sm) : ∃ p l, c = Call.set_step_pin p l := by
  unfold step_calls at hc
  rw [List.mem_flatMap] at hc
  obtain ⟨a, _, h⟩ := hc
  unfold axis_step_calls at h
  split at h
  · rw [List.mem_map] at h
    obtain ⟨m, _, rfl⟩ := h
    exact ⟨_, _, rfl⟩
  · cases h

theorem asserted_step_writes_eq_nil (M : Nat) (st : State) (sm : Nat)
    (hsup : ∀ a, a < st.n_active_axes → bitnum_is_true sm a = true → ∀ m, m < M →
      ∀ mot, st.axis_motors a m = some mot → mot.blocked = true ∨ mot.limited = true) :
    asserted_step_writes M st sm = [] := by
  unfold asserted_step_writes
  apply flatMap_nil_of_forall
  intro a ha
  rw [List.mem_range] at ha
  split
  · rename_i hbit
    rw [List.map_eq_nil_iff, List.filter_eq_nil_iff]
    intro mot hmot
    rw [mem_axis_slots] at hmot
    obtain ⟨m, hm, hocc⟩ := hmot
    rcases hsup a ha hbit m hm mot hocc with h | h <;> simp [h]
  · rfl

theorem step_axis_steps_of_selected (M sm dm : Nat) (st : State) (axis : Nat)
    (hs : sm < 256) (hd : dm < 256) (hactive : axis < st.n_active_axes)
    (hbit : bitnum_is_true sm axis = true) :
    (step M sm dm st).1.axis_steps axis =
      to_int32 (st.axis_steps axis + (if bitnum_is_true dm axis then -1 else 1)) := by
  rw [step_eq]
  show stepped st (to_uint8 sm) (to_uint8 dm) axis = _
  rw [to_uint8_of_lt hs, to_uint8_of_lt hd]
  unfold stepped
  rw [if_pos ⟨hactive, hbit⟩]

theorem to_int32_succ_cases (x : Int) (hlo : -2147483648 ≤ x) (hhi : x ≤ 2147483647) :
    (x < 2147483647 → to_int32 (x + 1) = x + 1) ∧
    (x = 2147483647 → to_int32 (x + 1) = -2147483648) := by
  unfold to_int32
  constructor <;> intro h <;> omega

theorem to_int32_pred_cases (x : Int) (hlo : -2147483648 ≤ x) (hhi : x ≤ 2147483647) :
    (-2147483648 < x → to_int32 (x - 1) = x - 1) ∧
    (x = -2147483648 → to_int32 (x - 1) = 2147483647) := by
  unfold to_int32
  constructor <;> intro h <;> omega

/-! ## Claims -/

/-- Counterexample for C1: one motor on axis 0 with the accumulator at
`INT_MAX` = 2147483647; `step(0b1, 0b0)` selects the active axis 0 with
direction bit 0 and leaves the accumulator at `INT_MIN` = -2147483648, not at
its value before plus 1. -/
theorem accumulator_wraps_at_int_max :
    0 < one_motor_at_int_max.n_active_axes ∧ bitnum_is_true 1 0 = true ∧
    bitnum_is_true 0 0 = false ∧
    one_motor_at_int_max.axis_steps 0 = 2147483647 ∧
    (step 2 1 0 one_motor_at_int_max).1.axis_steps 0 = -2147483648 ∧
    (step 2 1 0 one_motor_at_int_max).1.axis_steps 0 ≠
      one_motor_at_int_max.axis_steps 0 + 1 := by
  decide

/-- C1 (amended): for an active axis whose bit is set in the step mask, `step`
leaves the axis's accumulator at its previous value plus 1 when the axis's
direction bit is 0 and minus 1 when that bit is 1, in the 32-bit
two's-complement arithmetic of the `int` accumulator: exactly plus 1 unless
the previous value is `INT_MAX`, which wraps to `INT_MIN`, and exactly minus 1
unless the previous value is `INT_MIN`, which wraps to `INT_MAX`.  The
hypothesis `hint` is the type of the accumulator. -/
theorem step_accumulator_plus_minus_one (M step_mask dir_mask : Nat) (st : State) (axis : Nat)
    (hs : step_mask < 256) (hd : dir_mask < 256) (hactive : axis < st.n_active_axes)
    (hbit : bitnum_is_true step_mask axis = true)
    (hint : -2147483648 ≤ st.axis_steps axis ∧ st.axis_steps axis ≤ 2147483647) :
    (bitnum_is_true dir_mask axis = false →
      (step M step_mask dir_mask st).1.axis_steps axis = to_int32 (st.axis_steps axis + 1) ∧
      (st.axis_steps axis < 2147483647 →
        (step M step_mask dir_mask st).1.axis_steps axis = st.axis_steps axis + 1) ∧
      (st.axis_steps axis = 2147483647 →
        (step M step_mask dir_mask st).1.axis_steps axis = -2147483648)) ∧
    (bitnum_is_true dir_mask axis = true →
      (step M step_mask dir_mask st).1.axis_steps axis = to_int32 (st.axis_steps axis - 1) ∧
      (-2147483648 < st.axis_steps axis →
        (step M step_mask dir_mask st).1.axis_steps axis = st.axis_steps axis - 1) ∧
      (st.axis_steps axis = -2147483648 →
        (step M step_mask dir_mask st).1.axis_steps axis = 2147483647)) := by
  have hacc := step_axis_steps_of_selected M step_mask dir_mask st axis hs hd hactive hbit
  have hup := to_int32_succ_cases (st.axis_steps axis) hint.1 hint.2
  have hdown := to_int32_pred_cases (st.axis_steps axis) hint.1 hint.2
  constructor
  · intro h
    rw [h] at hacc
    have hacc2 : (step M step_mask dir_mask st).1.axis_steps axis =
        to_int32 (st.axis_steps axis + 1) := hacc
    exact ⟨hacc2, fun hlt => hacc2.trans (hup.1 hlt), fun heq => hacc2.trans (hup.2 heq)⟩
  · intro h
    rw [h] at hacc
    have hacc2 : (step M step_mask dir_mask st).1.axis_steps axis =
        to_int32 (st.axis_steps axis - 1) := hacc
    exact ⟨hacc2, fun hlt => hacc2.trans (hdown.1 hlt), fun heq => hacc2.trans (hdown.2 heq)⟩

/-- Witness for C1 (amended): one motor on axis 0.  From accumulator 0 a step
with direction bit 0 gives 1 and a step with direction bit 1 gives -1; from
`INT_MAX` a step with direction bit 1 gives `INT_MAX - 1` and a step with
direction bit 0 wraps to `INT_MIN`. -/
theorem step_accumulator_plus_minus_one_witness :
    (0 < one_motor.n_active_axes ∧ bitnum_is_true 1 0 = true ∧
      -2147483648 ≤ one_motor.axis_steps 0 ∧ one_motor.axis_steps 0 ≤ 2147483647) ∧
    (step 2 1 0 one_motor).1.axis_steps 0 = one_motor.axis_steps 0 + 1 ∧
    (step 2 1 1 one_motor).1.axis_steps 0 = one_motor.axis_steps 0 - 1 ∧
    (step 2 1 1 one_motor_at_int_max).1.axis_steps 0 = one_motor_at_int_max.axis_steps 0 - 1 ∧
    (step 2 1 0 one_motor_at_int_max).1.axis_steps 0 = -2147483648 :=
  ⟨⟨by decide, by decide, by decide, by decide⟩,
    ((step_accumulator_plus_minus_one 2 1 0 one_motor 0 (by decide) (by decide) (by decide)
      (by decide) (by decide)).1 (by decide)).2.1 (by decide),
    ((step_accumulator_plus_minus_one 2 1 1 one_motor 0 (by decide) (by decide) (by decide)
      (by decide) (by decide)).2 (by decide)).2.1 (by decide),
    ((step_accumulator_plus_minus_one 2 1 1 one_motor_at_int_max 0 (by decide) (by decide)
      (by decide) (by decide) (by decide)).2 (by decide)).2.1 (by decide),
    ((step_accumulator_plus_minus_one 2 1 0 one_motor_at_int_max 0 (by decide) (by decide)
      (by decide) (by decide) (by decide)).1 (by decide)).2.2 (by decide)⟩

/-- C2: for an axis whose bit is not set in the step mask, the accumulator after
`step` equals the accumulator before it. -/
theorem step_accumulator_unchanged (M step_mask dir_mask : Nat) (st : State) (axis : Nat)
    (hs : step_mask < 256) (hbit : bitnum_is_true step_mask axis = false) :
    (step M step_mask dir_mask st).1.axis_steps axis = st.axis_steps axis := by
  rw [step_eq]
  simp [stepped, to_uint8_of_lt hs, hbit]

/-- Witness for C2: two active axes, step mask `0b01`; the accumulator of
axis 1 keeps its value. -/
theorem step_accumulator_unchanged_witness :
    bitnum_is_true 1 1 = false ∧
    (step 2 1 0 (assignMotor 9 1 0 16 false 17 false one_motor).1).1.axis_steps 1 =
      (assignMotor 9 1 0 16 false 17 false one_motor).1.axis_steps 1 :=
  ⟨by decide, step_accumulator_unchanged 2 1 0 _ 1 (by decide) (by decide)⟩

/-- Counterexample for C3: one motor on axis 0 and two consecutive calls
`step(0, 255)`.  Bit 0 of the direction mask is the same in both calls, yet
the second call writes the motor's direction pin: after the first call the
direction memory holds 255, which the second call takes for the start-up
sentinel. -/
theorem dir_pin_rewritten_without_change_after_255 :
    one_motor.axis_motors 0 0 =
      some { step_pin := 7, step_invert := false, dir_pin := 14, dir_invert := false,
             blocked := false, limited := false } ∧
    bitnum_is_true 255 0 = bitnum_is_true 255 0 ∧
    Call.set_dir_pin 14 true ∈ (step 2 0 255 (step 2 0 255 one_motor).1).2 ∧
    dir_writes (step 2 0 255 (step 2 0 255 one_motor).1).2 ≠
      changed_dir_writes 2 one_motor 255 255 := by
  decide

/-- C3 (amended): in a call that follows a call whose direction mask was not
255, the direction-pin writes are exactly one write per motor of every active
axis whose direction bit differs from the preceding call's, with level
(direction bit XOR `dir_invert`); the direction pin of a motor that shares it
with no other motor is written if and only if its axis is active and the bit
differs, and then exactly once.  After a call whose direction mask was 255
the call writes the direction pin of every motor of every active axis. -/
theorem dir_pins_rewritten_iff_bit_changed (M sm1 dm1 sm2 dm2 : Nat) (st : State)
    (h1 : dm1 < 256) (h2 : dm2 < 256) :
    (dm1 ≠ 255 →
      dir_writes (step M sm2 dm2 (step M sm1 dm1 st).1).2 = changed_dir_writes M st dm1 dm2 ∧
      ∀ a m mot, m < M → st.axis_motors a m = some mot →
        dir_pin_unshared M st a m mot.dir_pin →
        ((∃ l, (mot.dir_pin, l) ∈ dir_writes (step M sm2 dm2 (step M sm1 dm1 st).1).2) ↔
          (a < st.n_active_axes ∧ bitnum_is_true dm2 a ≠ bitnum_is_true dm1 a)) ∧
        (a < st.n_active_axes → bitnum_is_true dm2 a ≠ bitnum_is_true dm1 a →
          write_count (dir_writes (step M sm2 dm2 (step M sm1 dm1 st).1).2) mot.dir_pin = 1 ∧
          (mot.dir_pin, xor (bitnum_is_true dm2 a) mot.dir_invert) ∈
            dir_writes (step M sm2 dm2 (step M sm1 dm1 st).1).2)) ∧
    (dm1 = 255 → st.n_active_axes ≤ 8 →
      dir_writes (step M sm2 dm2 (step M sm1 dm1 st).1).2 = all_dir_writes M st dm2) := by
  have hn := step_n_active_axes M sm1 dm1 st
  have ht := step_axis_motors M sm1 dm1 st
  have hp := step_previous_dir_mask M sm1 dm1 st
  rw [to_uint8_of_lt h1] at hp
  constructor
  · intro hne
    have heq : dir_writes (step M sm2 dm2 (step M sm1 dm1 st).1).2 =
        changed_dir_writes M st dm1 dm2 := by
      rw [dir_writes_next_step M sm2 dm2 _ h2 (by rw [hp]; exact hne), hp]
      exact changed_dir_writes_congr M st _ dm1 dm2 hn ht
    refine ⟨heq, ?_⟩
    intro a m mot hm hocc hun
    rw [heq, changed_dir_writes_eq_slot_writes]
    refine ⟨⟨?_, ?_⟩, ?_⟩
    · rintro ⟨l, hl⟩
      rw [mem_slot_writes] at hl
      obtain ⟨a2, m2, mot2, ha2, hsel, hm2, hocc2, _, hw⟩ := hl
      have hpin : mot2.dir_pin = mot.dir_pin := by simpa using congrArg Prod.fst hw
      obtain ⟨e1, _⟩ := unshared_dir_pin_others M st a m _ hun a2 m2 mot2 ha2 hm2 hocc2 hpin
      subst e1
      exact ⟨ha2, by simpa using hsel⟩
    · rintro ⟨ha, hdiff⟩
      refine ⟨xor (bitnum_is_true dm2 a) mot.dir_invert, ?_⟩
      rw [mem_slot_writes]
      exact ⟨a, m, mot, ha, by simpa using hdiff, hm, hocc, rfl, rfl⟩
    · intro ha hdiff
      constructor
      · unfold write_count
        apply countP_slot_writes_eq_one M st _ _ _ _ a m mot ha (by simpa using hdiff) hm hocc rfl
          (by simp)
        intro a2 m2 mot2 ha2 hm2 hocc2 hP
        exact unshared_dir_pin_others M st a m _ hun a2 m2 mot2 ha2 hm2 hocc2 (by simpa using hP)
      · rw [mem_slot_writes]
        exact ⟨a, m, mot, ha, by simpa using hdiff, hm, hocc, rfl, rfl⟩
  · intro h255 haxes
    rw [dir_writes_first_step M sm2 dm2 _ h2 (by rw [hp]; exact h255) (by rw [hn]; exact haxes)]
    exact all_dir_writes_congr M st _ dm2 hn ht

/-- Witness for C3 (amended): one motor on axis 0; after `step(0, 0)` the call
`step(0, 1)` writes its direction pin once, high, and the call `step(0, 0)`
does not write it. -/
theorem dir_pins_rewritten_iff_bit_changed_witness :
    ((0 : Nat) ≠ 255 ∧ dir_pin_unshared 2 one_motor 0 0 14) ∧
    dir_writes (step 2 0 1 (step 2 0 0 one_motor).1).2 = [(14, true)] ∧
    write_count (dir_writes (step 2 0 1 (step 2 0 0 one_motor).1).2) 14 = 1 ∧
    dir_writes (step 2 0 0 (step 2 0 0 one_motor).1).2 = [] :=
  ⟨⟨by decide, by decide⟩,
    ((dir_pins_rewritten_iff_bit_changed 2 0 0 0 1 one_motor (by decide) (by decide)).1
      (by decide)).1.trans (by decide),
    ((((dir_pins_rewritten_iff_bit_changed 2 0 0 0 1 one_motor (by decide) (by decide)).1
      (by decide)).2 0 0 _ (by decide) rfl (by decide)).2 (by decide) (by decide)).1,
    ((dir_pins_rewritten_iff_bit_changed 2 0 0 0 0 one_motor (by decide) (by decide)).1
      (by decide)).1.trans (by decide)⟩

/-- C4: on a call that finds the direction memory at the sentinel 255, for
every direction mask, the direction-pin writes are exactly one write per motor
of every active axis, with level (direction bit XOR `dir_invert`); the
direction pin of a motor that shares it with no other motor is written exactly
once; and the direction memory afterwards equals the direction mask.  The
masks carry one bit per axis, so at most eight axes are active. -/
theorem first_step_writes_every_dir_pin (M step_mask dir_mask : Nat) (st : State)
    (hd : dir_mask < 256) (hfirst : st.previous_dir_mask = 255)
    (haxes : st.n_active_axes ≤ 8) :
    dir_writes (step M step_mask dir_mask st).2 = all_dir_writes M st dir_mask ∧
    (step M step_mask dir_mask st).1.previous_dir_mask = dir_mask ∧
    ∀ a m mot, a < st.n_active_axes → m < M → st.axis_motors a m = some mot →
      dir_pin_unshared M st a m mot.dir_pin →
      write_count (dir_writes (step M step_mask dir_mask st).2) mot.dir_pin = 1 ∧
      (mot.dir_pin, xor (bitnum_is_true dir_mask a) mot.dir_invert) ∈
        dir_writes (step M step_mask dir_mask st).2 := by
  have heq := dir_writes_first_step M step_mask dir_mask st hd hfirst haxes
  refine ⟨heq, ?_, ?_⟩
  · rw [step_previous_dir_mask, to_uint8_of_lt hd]
  · intro a m mot ha hm hocc hun
    rw [heq, all_dir_writes_eq_slot_writes]
    constructor
    · unfold write_count
      apply countP_slot_writes_eq_one M st _ _ _ _ a m mot ha rfl hm hocc rfl (by simp)
      intro a2 m2 mot2 ha2 hm2 hocc2 hP
      exact unshared_dir_pin_others M st a m _ hun a2 m2 mot2 ha2 hm2 hocc2 (by simpa using hP)
    · rw [mem_slot_writes]
      exact ⟨a, m, mot, ha, rfl, hm, hocc, rfl, rfl⟩

/-- Witness for C4: two motors on axis 0 (the second with `dir_invert` set) in
the start-up state; the first call, with direction mask 255, writes both
direction pins once and leaves 255 in the direction memory. -/
theorem first_step_writes_every_dir_pin_witness :
    ((255 : Nat) < 256 ∧
      (assignMotor 8 0 1 13 false 15 true one_motor).1.previous_dir_mask = 255 ∧
      (assignMotor 8 0 1 13 false 15 true one_motor).1.n_active_axes ≤ 8) ∧
    dir_writes (step 2 1 255 (assignMotor 8 0 1 13 false 15 true one_motor).1).2 =
      [(14, true), (15, false)] ∧
    (step 2 1 255 (assignMotor 8 0 1 13 false 15 true one_motor).1).1.previous_dir_mask = 255 :=
  ⟨⟨by decide, by decide, by decide⟩,
    (first_step_writes_every_dir_pin 2 1 255 (assignMotor 8 0 1 13 false 15 true one_motor).1
      (by decide) (by decide) (by decide)).1.trans (by decide),
    (first_step_writes_every_dir_pin 2 1 255 (assignMotor 8 0 1 13 false 15 true one_motor).1
      (by decide) (by decide) (by decide)).2.1⟩

/-- C5: the step-pin writes of `step` are exactly one assertion (level NOT
`step_invert`) per motor that is neither blocked nor limited, on every active
axis whose bit is set in the step mask.  Hence the step pin of a blocked motor
is never written, while the step pin of a motor that is neither blocked nor
limited, on an active axis selected by the step mask, is asserted exactly
once (pins being told apart by their number, the motor shares its pin with no
other). -/
theorem step_asserts_unblocked_motors_only (M step_mask dir_mask : Nat) (st : State)
    (hs : step_mask < 256) :
    step_writes (step M step_mask dir_mask st).2 = asserted_step_writes M st step_mask ∧
    (∀ a m mot, st.axis_motors a m = some mot → mot.blocked = true →
      step_pin_unshared M st a m mot.step_pin →
      write_count (step_writes (step M step_mask dir_mask st).2) mot.step_pin = 0) ∧
    (∀ a m mot, a < st.n_active_axes → m < M → st.axis_motors a m = some mot →
      mot.blocked = false → mot.limited = false → bitnum_is_true step_mask a = true →
      step_pin_unshared M st a m mot.step_pin →
      write_count (step_writes (step M step_mask dir_mask st).2) mot.step_pin = 1 ∧
      (mot.step_pin, !mot.step_invert) ∈ step_writes (step M step_mask dir_mask st).2) := by
  have heq : step_writes (step M step_mask dir_mask st).2 =
      asserted_step_writes M st step_mask := by
    rw [step_writes_step, to_uint8_of_lt hs]
  refine ⟨heq, ?_, ?_⟩
  · intro a m mot hocc hbl hun
    rw [heq]
    exact write_count_asserted_eq_zero M st step_mask a m mot hocc (Or.inl hbl) hun
  · intro a m mot ha hm hocc hbl hli hbit hun
    rw [heq]
    exact ⟨write_count_asserted_eq_one M st step_mask a m mot ha hm hocc hbl hli hbit hun,
      mem_asserted_of_eligible M st step_mask a m mot ha hm hocc hbl hli hbit⟩

/-- Witness for C5: two motors on axis 0, the motor in slot 1 blocked;
`step(0b1, 0b0)` asserts the step pin of motor 0 (handle 7) only, once, and
never writes the step pin of motor 1 (handle 8). -/
theorem step_asserts_unblocked_motors_only_witness :
    ((1 : Nat) < 256 ∧ step_pin_unshared 2 two_motors_one_blocked 0 1 8 ∧
      step_pin_unshared 2 two_motors_one_blocked 0 0 7) ∧
    step_writes (step 2 1 0 two_motors_one_blocked).2 = [(7, true)] ∧
    write_count (step_writes (step 2 1 0 two_motors_one_blocked).2) 8 = 0 ∧
    write_count (step_writes (step 2 1 0 two_motors_one_blocked).2) 7 = 1 :=
  ⟨⟨by decide, by decide, by decide⟩,
    (step_asserts_unblocked_motors_only 2 1 0 two_motors_one_blocked (by decide)).1.trans
      (by decide),
    (step_asserts_unblocked_motors_only 2 1 0 two_motors_one_blocked (by decide)).2.1 0 1
      { step_pin := 8, step_invert := false, dir_pin := 15, dir_invert := false,
        blocked := true, limited := false } (by decide) rfl (by decide),
    ((step_asserts_unblocked_motors_only 2 1 0 two_motors_one_blocked (by decide)).2.2 0 0
      { step_pin := 7, step_invert := false, dir_pin := 14, dir_invert := false,
        blocked := false, limited := false } (by decide) (by decide) (by decide) rfl rfl
      (by decide) (by decide)).1⟩

/-- C6: for an occupied, unblocked motor (whose step pin no other motor
shares): while its limited flag is set, `step` never writes its step pin,
whatever the masks; and after `unlimit(axis, motor)` a `step` whose step mask
contains the motor's active axis asserts its step pin, once, with level NOT
`step_invert`. -/
theorem limited_motor_steps_again_after_unlimit (M : Nat) (st : State) (a m : Nat)
    (mot : motor_t) (hocc : st.axis_motors a m = some mot) (hub : mot.blocked = false)
    (hun : step_pin_unshared M st a m mot.step_pin) :
    (mot.limited = true → ∀ step_mask dir_mask,
      write_count (step_writes (step M step_mask dir_mask st).2) mot.step_pin = 0) ∧
    (∀ step_mask dir_mask, step_mask < 256 → a < st.n_active_axes → m < M →
      bitnum_is_true step_mask a = true →
      (mot.step_pin, !mot.step_invert) ∈
        step_writes (step M step_mask dir_mask (unlimit a m st)).2 ∧
      write_count (step_writes (step M step_mask dir_mask (unlimit a m st)).2)
        mot.step_pin = 1) := by
  constructor
  · intro hli sm dm
    rw [step_writes_step]
    exact write_count_asserted_eq_zero M st _ a m mot hocc (Or.inr hli) hun
  · intro sm dm hs ha hm hbit
    rw [step_writes_step, to_uint8_of_lt hs]
    have hocc2 := unlimit_slot a m st mot hocc
    have ha2 : a < (unlimit a m st).n_active_axes := by rw [unlimit_n_active_axes]; exact ha
    exact ⟨mem_asserted_of_eligible M _ sm a m { mot with limited := false } ha2 hm hocc2 hub rfl hbit,
      write_count_asserted_eq_one M _ sm a m { mot with limited := false } ha2 hm hocc2 hub rfl
        hbit (unlimit_step_pin_unshared M st a m _ hun)⟩

/-- Witness for C6: one motor on axis 0, limited; `step(0b1, 0b0)` writes no
step pin, and after `unlimit(0, 0)` the same call asserts the pin high. -/
theorem limited_motor_steps_again_after_unlimit_witness :
    (step_pin_unshared 2 (limit 0 0 one_motor) 0 0 7 ∧ (1 : Nat) < 256 ∧
      0 < (limit 0 0 one_motor).n_active_axes ∧ bitnum_is_true 1 0 = true) ∧
    write_count (step_writes (step 2 1 0 (limit 0 0 one_motor)).2) 7 = 0 ∧
    (7, true) ∈ step_writes (step 2 1 0 (unlimit 0 0 (limit 0 0 one_motor))).2 :=
  ⟨⟨by decide, by decide, by decide, by decide⟩,
    (limited_motor_steps_again_after_unlimit 2 (limit 0 0 one_motor) 0 0
      { step_pin := 7, step_invert := false, dir_pin := 14, dir_invert := false,
        blocked := false, limited := true } (by decide) rfl (by decide)).1 rfl 1 0,
    ((limited_motor_steps_again_after_unlimit 2 (limit 0 0 one_motor) 0 0
      { step_pin := 7, step_invert := false, dir_pin := 14, dir_invert := false,
        blocked := false, limited := true } (by decide) rfl (by decide)).2 1 0 (by decide)
      (by decide) (by decide) (by decide)).1⟩

/-- Counterexample for C7: one motor on axis 0; `step(0, 0)` asserts no step
pin, yet the following `unstep` (backend not self-managing) writes the
motor's step pin. -/
theorem unstep_writes_never_asserted_pin :
    one_motor.axis_motors 0 0 =
      some { step_pin := 7, step_invert := false, dir_pin := 14, dir_invert := false,
             blocked := false, limited := false } ∧
    write_count (step_writes (step 2 0 0 one_motor).2) 7 = 0 ∧
    step_writes (unstep 2 false (step 2 0 0 one_motor).1).2 = [(7, false)] ∧
    write_count (step_writes (unstep 2 false (step 2 0 0 one_motor).1).2) 7 ≠ 0 := by
  decide

/-- C7 (amended): when `start_unstep` returns false, the step-pin writes of
`unstep` are one write of the inactive level `step_invert` per motor of every
active axis: every step pin the preceding `step` asserted is written its
inactive level, and so is the step pin of every other motor of an active axis,
asserted or not. -/
theorem unstep_releases_every_occupied_pin (M step_mask dir_mask : Nat) (st : State) :
    step_writes (unstep M false (step M step_mask dir_mask st).1).2 =
      released_step_writes M st ∧
    (∀ p l, (p, l) ∈ step_writes (step M step_mask dir_mask st).2 →
      (p, !l) ∈ step_writes (unstep M false (step M step_mask dir_mask st).1).2) ∧
    (∀ a m mot, a < st.n_active_axes → m < M → st.axis_motors a m = some mot →
      (mot.step_pin, mot.step_invert) ∈
        step_writes (unstep M false (step M step_mask dir_mask st).1).2) := by
  have heq : step_writes (unstep M false (step M step_mask dir_mask st).1).2 =
      released_step_writes M st := by
    rw [step_writes_unstep]
    exact released_step_writes_congr M st _ (step_n_active_axes _ _ _ _)
      (step_axis_motors _ _ _ _)
  refine ⟨heq, ?_, ?_⟩
  · intro p l hpl
    rw [step_writes_step, mem_asserted_step_writes] at hpl
    obtain ⟨a, m, mot, ha, _, hm, hocc, _, _, hp, hl⟩ := hpl
    rw [heq, ← hp, hl, Bool.not_not]
    exact mem_released_step_writes M st a m mot ha hm hocc
  · intro a m mot ha hm hocc
    rw [heq]
    exact mem_released_step_writes M st a m mot ha hm hocc

/-- Witness for C7 (amended): two motors on axis 0, the motor in slot 1
blocked; `step(0b1, 0b0)` asserts pin 7 only, and `unstep` writes both pins
low. -/
theorem unstep_releases_every_occupied_pin_witness :
    (7, true) ∈ step_writes (step 2 1 0 two_motors_one_blocked).2 ∧
    (7, false) ∈ step_writes (unstep 2 false (step 2 1 0 two_motors_one_blocked).1).2 ∧
    step_writes (unstep 2 false (step 2 1 0 two_motors_one_blocked).1).2 =
      [(7, false), (8, false)] :=
  ⟨by decide,
    (unstep_releases_every_occupied_pin 2 1 0 two_motors_one_blocked).2.1 7 true (by decide),
    (unstep_releases_every_occupied_pin 2 1 0 two_motors_one_blocked).1.trans (by decide)⟩

/-- C8: `unstep` calls `start_unstep` once, first.  If it returns true that is
the only backend call.  If it returns false, `unstep` then writes level
`step_invert` to the step pin of every motor of every active axis, once each,
and calls `finish_unstep` once, as the last backend call; the state is
unchanged either way. -/
theorem unstep_backend_protocol (M : Nat) (st : State) :
    unstep M true st = (st, [Call.start_unstep]) ∧
    unstep M false st =
      (st, [Call.start_unstep] ++ unstep_calls M st ++ [Call.finish_unstep]) ∧
    (unstep M false st).2.count Call.start_unstep = 1 ∧
    (unstep M false st).2.count Call.finish_unstep = 1 ∧
    step_writes (unstep M false st).2 = released_step_writes M st ∧
    (∀ a m mot, a < st.n_active_axes → m < M → st.axis_motors a m = some mot →
      step_pin_unshared M st a m mot.step_pin →
      write_count (step_writes (unstep M false st).2) mot.step_pin = 1 ∧
      (mot.step_pin, mot.step_invert) ∈ step_writes (unstep M false st).2) := by
  have hcalls : ∀ c, (∀ p l, c ≠ Call.set_step_pin p l) → (unstep_calls M st).count c = 0 := by
    intro c hc
    rw [List.count_eq_zero]
    intro hmem
    obtain ⟨p, l, h⟩ := mem_unstep_calls M st c hmem
    exact hc p l h
  refine ⟨by rw [unstep_eq]; rfl, by rw [unstep_eq]; rfl, ?_, ?_, step_writes_unstep M st, ?_⟩
  · rw [unstep_eq]
    simp [List.count_append, hcalls Call.start_unstep (by intro p l h; cases h)]
  · rw [unstep_eq]
    simp [List.count_append, hcalls Call.finish_unstep (by intro p l h; cases h)]
  · intro a m mot ha hm hocc hun
    rw [step_writes_unstep]
    refine ⟨?_, mem_released_step_writes M st a m mot ha hm hocc⟩
    unfold write_count
    rw [released_step_writes_eq_slot_writes]
    apply countP_slot_writes_eq_one M st _ _ _ _ a m mot ha rfl hm hocc rfl (by simp)
    intro a2 m2 mot2 ha2 hm2 hocc2 hP
    exact unshared_step_pin_others M st a m _ hun a2 m2 mot2 ha2 hm2 hocc2 (by simpa using hP)

/-- Witness for C8: two motors on axis 0, one of them blocked; a backend that
is not self-managing sees `start_unstep`, both step pins written low, then
`finish_unstep`. -/
theorem unstep_backend_protocol_witness :
    (unstep 2 false two_motors_one_blocked).2 =
      [Call.start_unstep, Call.set_step_pin 7 false, Call.set_step_pin 8 false,
        Call.finish_unstep] ∧
    write_count (step_writes (unstep 2 false two_motors_one_blocked).2) 8 = 1 :=
  ⟨(congrArg Prod.snd (unstep_backend_protocol 2 two_motors_one_blocked).2.1).trans (by decide),
    ((unstep_backend_protocol 2 two_motors_one_blocked).2.2.2.2.2 0 1
      { step_pin := 8, step_invert := false, dir_pin := 15, dir_invert := false,
        blocked := true, limited := false } (by decide) (by decide) (by decide)
      (by decide)).1⟩

/-- C9: after `assignMotor` is called twice for one slot, with any `block`,
`unblock`, `limit` and `unlimit` calls on the slot in between, the slot holds
exactly the second call's record: the handle the backend returned for the
second call's `init_step_pin(step_pin, step_invert)`, the second call's
polarities and direction pin, and both flags cleared. -/
theorem assignMotor_twice_keeps_second_record (handle1 handle2 : Int) (axis motor : Nat)
    (step_pin1 : Int) (step_invert1 : Bool) (dir_pin1 : Int) (dir_invert1 : Bool)
    (ops : List FlagOp)
    (step_pin2 : Int) (step_invert2 : Bool) (dir_pin2 : Int) (dir_invert2 : Bool)
    (st : State) :
    (assignMotor handle2 axis motor step_pin2 step_invert2 dir_pin2 dir_invert2
      (run_flag_ops ops axis motor
        (assignMotor handle1 axis motor step_pin1 step_invert1 dir_pin1 dir_invert1 st).1)).1.axis_motors
        axis motor =
      some { step_pin := handle2, step_invert := step_invert2, dir_pin := dir_pin2,
             dir_invert := dir_invert2, blocked := false, limited := false } ∧
    (assignMotor handle2 axis motor step_pin2 step_invert2 dir_pin2 dir_invert2
      (run_flag_ops ops axis motor
        (assignMotor handle1 axis motor step_pin1 step_invert1 dir_pin1 dir_invert1 st).1)).2 =
      [Call.init_step_pin step_pin2 step_invert2] := by
  simp [assignMotor, set_motor, call]

/-- C10: from the initial state with one motor assigned on axis 0 (neither
polarity inverted), `step(0b1, 0b0)` leaves accumulator 0 at +1, writes the
direction pin once (low) and asserts the step pin high; `unstep` with a backend
that is not self-managing writes the step pin low; then `step(0b1, 0b1)` writes
the direction pin once more (high) and leaves accumulator 0 at 0. -/
theorem single_motor_scenario (M : Nat) (hM : 0 < M) (handle step_pin dir_pin : Int) :
    (step M 1 0 (assignMotor handle 0 0 step_pin false dir_pin false State.initial).1).1.axis_steps 0
      = 1 ∧
    (step M 1 0 (assignMotor handle 0 0 step_pin false dir_pin false State.initial).1).2 =
      [Call.set_dir_pin dir_pin false, Call.finish_dir, Call.set_step_pin handle true,
        Call.finish_step] ∧
    (unstep M false
      (step M 1 0 (assignMotor handle 0 0 step_pin false dir_pin false State.initial).1).1).2 =
      [Call.start_unstep, Call.set_step_pin handle false, Call.finish_unstep] ∧
    (step M 1 1 (unstep M false
      (step M 1 0 (assignMotor handle 0 0 step_pin false dir_pin false State.initial).1).1).1).2 =
      [Call.set_dir_pin dir_pin true, Call.finish_dir, Call.set_step_pin handle true,
        Call.finish_step] ∧
    (step M 1 1 (unstep M false
      (step M 1 0 (assignMotor handle 0 0 step_pin false dir_pin false State.initial).1).1).1).1.axis_steps 0
      = 0 := by
  have hslots : ∀ st : State, st.axis_motors =
      (assignMotor handle 0 0 step_pin false dir_pin false State.initial).1.axis_motors →
      axis_slots M st 0 =
        [{ step_pin := handle, step_invert := false, dir_pin := dir_pin, dir_invert := false,
           blocked := false, limited := false }] := by
    intro st hst
    unfold axis_slots
    rw [hst]
    apply filterMap_range_single _ _ M hM
    · simp [assignMotor, set_motor, call]
    · intro i hi
      have : i ≠ 0 := by omega
      simp [assignMotor, set_motor, call, State.initial, this]
  have b1 : bitnum_is_true 1 0 = true := by decide
  have b0 : bitnum_is_true 0 0 = false := by decide
  have b255 : bitnum_is_true 255 0 = true := by decide
  have u0 : to_uint8 0 = 0 := by decide
  have u1 : to_uint8 1 = 1 := by decide
  have n0 : not_uint8 0 = 255 := by decide
  have i1 : to_int32 1 = 1 := by decide
  have i0 : to_int32 0 = 0 := by decide
  have e1 := step_eq M 1 0 (assignMotor handle 0 0 step_pin false dir_pin false State.initial).1
  have e2 := unstep_eq M false
    (step M 1 0 (assignMotor handle 0 0 step_pin false dir_pin false State.initial).1).1
  simp only [Bool.false_eq_true, if_false] at e2
  have es : (unstep M false
      (step M 1 0 (assignMotor handle 0 0 step_pin false dir_pin false State.initial).1).1).1 =
      (step M 1 0 (assignMotor handle 0 0 step_pin false dir_pin false State.initial).1).1 := by
    rw [e2]
  have hn1 := step_n_active_axes M 1 0
    (assignMotor handle 0 0 step_pin false dir_pin false State.initial).1
  have ht1 := step_axis_motors M 1 0
    (assignMotor handle 0 0 step_pin false dir_pin false State.initial).1
  have hp1 := step_previous_dir_mask M 1 0
    (assignMotor handle 0 0 step_pin false dir_pin false State.initial).1
  have hn0 : (assignMotor handle 0 0 step_pin false dir_pin false State.initial).1.n_active_axes
      = 1 := rfl
  have hp0 :
      (assignMotor handle 0 0 step_pin false dir_pin false State.initial).1.previous_dir_mask
      = 255 := rfl
  have hs0 : (assignMotor handle 0 0 step_pin false dir_pin false State.initial).1.axis_steps 0
      = 0 := rfl
  have hacc1 :
      (step M 1 0 (assignMotor handle 0 0 step_pin false dir_pin false State.initial).1).1.axis_steps 0
        = 1 := by
    rw [e1]
    simp [stepped, hn0, hs0, u0, u1, b1, b0, i1]
  refine ⟨hacc1, ?_, ?_, ?_, ?_⟩
  · rw [e1]
    simp [dir_calls, step_calls, compared_mask, axis_dir_calls, axis_step_calls, hn0, hp0,
      List.range_succ, List.range_zero,
      hslots _ rfl, u0, u1, n0, b0, b1, b255]
  · rw [e2]
    simp [unstep_calls, hn1, hn0, hslots _ ht1, List.range_succ, List.range_zero]
  · rw [es, step_eq]
    simp [dir_calls, step_calls, compared_mask, axis_dir_calls, axis_step_calls, hn1, hn0, hp1,
      List.range_succ, List.range_zero,
      hslots _ ht1, u0, u1, b0, b1]
  · rw [es, step_eq]
    simp [stepped, hn1, hn0, hacc1, u1, b1, i0]

/-- Witness for C10: the scenario with two motor slots per axis, raw step pin
12 (backend handle 7) and direction pin 14. -/
theorem single_motor_scenario_witness :
    0 < 2 ∧
    (step 2 1 0 one_motor).1.axis_steps 0 = 1 ∧
    (step 2 1 0 one_motor).2 =
      [Call.set_dir_pin 14 false, Call.finish_dir, Call.set_step_pin 7 true,
        Call.finish_step] ∧
    (unstep 2 false (step 2 1 0 one_motor).1).2 =
      [Call.start_unstep, Call.set_step_pin 7 false, Call.finish_unstep] ∧
    (step 2 1 1 (unstep 2 false (step 2 1 0 one_motor).1).1).2 =
      [Call.set_dir_pin 14 true, Call.finish_dir, Call.set_step_pin 7 true,
        Call.finish_step] ∧
    (step 2 1 1 (unstep 2 false (step 2 1 0 one_motor).1).1).1.axis_steps 0 = 0 :=
  ⟨by decide, single_motor_scenario 2 (by decide) 7 12 14⟩

/-- C11: on an unoccupied slot `block`, `unblock`, `limit` and `unlimit` leave
the whole state unchanged.  On an occupied slot `block`/`unblock` set the
motor's blocked flag to true/false and `limit`/`unlimit` set its limited flag
to true/false, the rest of the record staying as it was; and each of the four
leaves every other slot, the accumulators, the active-axis count and the
direction memory unchanged. -/
theorem flag_toggles_frame (axis motor : Nat) (st : State) :
    (st.axis_motors axis motor = none →
      ∀ op : FlagOp, op.run axis motor st = st) ∧
    (∀ m, st.axis_motors axis motor = some m →
      (block axis motor st).axis_motors axis motor = some { m with blocked := true } ∧
      (unblock axis motor st).axis_motors axis motor = some { m with blocked := false } ∧
      (limit axis motor st).axis_motors axis motor = some { m with limited := true } ∧
      (unlimit axis motor st).axis_motors axis motor = some { m with limited := false }) ∧
    (∀ op : FlagOp,
      (∀ a k, ¬(a = axis ∧ k = motor) →
        (op.run axis motor st).axis_motors a k = st.axis_motors a k) ∧
      (op.run axis motor st).axis_steps = st.axis_steps ∧
      (op.run axis motor st).n_active_axes = st.n_active_axes ∧
      (op.run axis motor st).previous_dir_mask = st.previous_dir_mask) := by
  refine ⟨?_, ?_, ?_⟩
  · intro hnone op
    cases op <;> simp [FlagOp.run, block, unblock, limit, unlimit, hnone]
  · intro m hm
    simp [block, unblock, limit, unlimit, hm, set_motor]
  · intro op
    cases hocc : st.axis_motors axis motor with
    | none => cases op <;> simp [FlagOp.run, block, unblock, limit, unlimit, hocc]
    | some m =>
      cases op <;>
        simp +contextual [FlagOp.run, block, unblock, limit, unlimit,
          hocc, set_motor]

/-- Witness for C11: with two motors on axis 0, `limit(0, 0)` sets the limited
flag of motor 0 and leaves its blocked flag and motor 1 alone; on the empty
slot (1, 0) it changes nothing. -/
theorem flag_toggles_frame_witness :
    (limit 0 0 two_motors_one_blocked).axis_motors 0 0 =
      some { step_pin := 7, step_invert := false, dir_pin := 14, dir_invert := false,
             blocked := false, limited := true } ∧
    (FlagOp.limit.run 0 0 two_motors_one_blocked).axis_motors 0 1 =
      two_motors_one_blocked.axis_motors 0 1 ∧
    FlagOp.limit.run 1 0 two_motors_one_blocked = two_motors_one_blocked :=
  ⟨((flag_toggles_frame 0 0 two_motors_one_blocked).2.1
      { step_pin := 7, step_invert := false, dir_pin := 14, dir_invert := false,
        blocked := false, limited := false } (by decide)).2.2.1,
    ((flag_toggles_frame 0 0 two_motors_one_blocked).2.2 FlagOp.limit).1 0 1 (by decide),
    (flag_toggles_frame 1 0 two_motors_one_blocked).1 (by decide) FlagOp.limit⟩

/-- Counterexample for C12: the registered name "I2S" equals the initial part
"i2s" of the configured name "i2s_static" up to letter case, yet `find_engine`
returns null: `strncmp` compares the characters exactly. -/
theorem find_engine_misses_other_letter_case :
    (∃ p ∈ three_engines, prefix_up_to_case p.name "i2s_static".toList) ∧
    find_engine three_engines "i2s_static".toList = none :=
  ⟨⟨{ name := "I2S".toList, id := 2 }, by decide, by decide⟩, by decide⟩

/-- C12 (amended): engine lookup is a case-sensitive prefix match: whenever
some registered engine's name equals an initial part of the configured name,
character for character, `find_engine` returns a registered engine whose name
is an initial part of the configured name. -/
theorem find_engine_finds_exact_prefix (reg : List step_engine_t) (name : c_string)
    (h : ∃ p ∈ reg, p.name <+: name) :
    ∃ q ∈ reg, find_engine reg name = some q ∧ q.name <+: name := by
  cases hf : find_engine reg name with
  | none =>
    obtain ⟨p, hp, hpre⟩ := h
    exact absurd hpre ((find_engine_eq_none_iff reg name).mp hf p hp)
  | some q =>
    obtain ⟨pre, post, e, hq, _⟩ := find_engine_eq_some reg name q hf
    exact ⟨q, by rw [e]; simp, rfl, hq⟩

/-- Witness for C12 (amended): a registered "I2S" is found for the configured
names "I2S_static" and "I2S_stream". -/
theorem find_engine_finds_exact_prefix_witness :
    (∃ p ∈ three_engines, p.name <+: "I2S_static".toList) ∧
    (∃ q ∈ three_engines,
      find_engine three_engines "I2S_static".toList = some q ∧ q.name <+: "I2S_static".toList) ∧
    find_engine three_engines "I2S_static".toList = some { name := "I2S".toList, id := 2 } ∧
    find_engine three_engines "I2S_stream".toList = some { name := "I2S".toList, id := 2 } :=
  ⟨⟨{ name := "I2S".toList, id := 2 }, by decide, by decide⟩,
    find_engine_finds_exact_prefix three_engines "I2S_static".toList
      ⟨{ name := "I2S".toList, id := 2 }, by decide, by decide⟩,
    by decide, by decide⟩

/-- C13: `find_engine` returns null if and only if no registered engine's name
is an initial substring of the configured name; otherwise it returns the
first engine, in registry order, whose name is an initial substring of the
configured name. -/
theorem find_engine_first_prefix_match (reg : List step_engine_t) (name : c_string) :
    (find_engine reg name = none ↔ ∀ p ∈ reg, ¬ p.name <+: name) ∧
    (∀ p, find_engine reg name = some p →
      ∃ pre post, reg = pre ++ p :: post ∧ p.name <+: name ∧
        ∀ q ∈ pre, ¬ q.name <+: name) :=
  ⟨find_engine_eq_none_iff reg name, fun p h => find_engine_eq_some reg name p h⟩

/-- Witness for C13: among two engines whose names are both initial substrings
of "I2S_static" the one earlier in the registry is returned; "Servo" matches
no engine of the registry. -/
theorem find_engine_first_prefix_match_witness :
    find_engine ({ name := "I2".toList, id := 5 } :: three_engines) "I2S_static".toList =
      some { name := "I2".toList, id := 5 } ∧
    (∀ p ∈ three_engines, ¬ p.name <+: "Servo".toList) :=
  ⟨by decide, (find_engine_first_prefix_match three_engines "Servo".toList).1.mp (by decide)⟩

/-- C14: evaluation of `Stepping::afterParse` where the claim fails.  With an
engine named "I2S" registered and the I2SO bus not configured, `afterParse`
succeeds for both serialized-stream engine types: `strcmp("I2S", name)` is
non-zero for every name of `stepTypes`, so the second `Assert` holds without
`config->_i2so` being looked at, and the result never depends on it. -/
theorem afterParse_accepts_i2s_without_i2so :
    afterParse three_engines stepper_id_t.I2S_STATIC false =
      Except.ok { name := "I2S".toList, id := 2 } ∧
    afterParse three_engines stepper_id_t.I2S_STREAM false =
      Except.ok { name := "I2S".toList, id := 2 } ∧
    ∀ (reg : List step_engine_t) (e : stepper_id_t),
      afterParse reg e false = afterParse reg e true := by
  refine ⟨rfl, rfl, ?_⟩
  intro reg e
  have h1 : strcmp "I2S".toList "Timed".toList ≠ 0 := by decide
  have h2 : strcmp "I2S".toList "RMT".toList ≠ 0 := by decide
  have h3 : strcmp "I2S".toList "I2S_static".toList ≠ 0 := by decide
  have h4 : strcmp "I2S".toList "I2S_stream".toList ≠ 0 := by decide
  cases e <;> simp_all [afterParse, stepTypes, stepper_id_t.toNat]

/-- Counterexample for C15: two active axes, direction memory 0; the call
`step(0, 0b01)` changes the direction bit of axis 0 only, yet `finish_dir` is
invoked twice, once per active axis. -/
theorem finish_dir_called_for_unchanged_axis :
    (step 2 0 0 two_axes).1.previous_dir_mask = 0 ∧
    changed_axes (step 2 0 0 two_axes).1 0 1 = 1 ∧
    (step 2 0 1 (step 2 0 0 two_axes).1).2.count Call.finish_dir = 2 := by
  decide

/-- C15 (amended): during a call of `step`, `finish_dir` is invoked once for
every active axis, changed or not, when the direction mask differs from the
remembered mask, which is always so while the memory holds the sentinel 255;
it is not invoked at all when the direction mask equals the remembered mask.
So the number of invocations is at least the number of active axes whose
direction bit changed. -/
theorem finish_dir_once_per_active_axis (M step_mask dir_mask : Nat) (st : State)
    (hd : dir_mask < 256) :
    (st.previous_dir_mask = 255 →
      (step M step_mask dir_mask st).2.count Call.finish_dir = st.n_active_axes) ∧
    (st.previous_dir_mask ≠ 255 → dir_mask ≠ st.previous_dir_mask →
      (step M step_mask dir_mask st).2.count Call.finish_dir = st.n_active_axes) ∧
    (st.previous_dir_mask ≠ 255 → dir_mask = st.previous_dir_mask →
      (step M step_mask dir_mask st).2.count Call.finish_dir = 0) ∧
    (st.previous_dir_mask ≠ 255 →
      changed_axes st st.previous_dir_mask dir_mask ≤
        (step M step_mask dir_mask st).2.count Call.finish_dir) := by
  rw [count_finish_dir_step, to_uint8_of_lt hd]
  unfold compared_mask
  refine ⟨?_, ?_, ?_, ?_⟩
  · intro h255
    rw [if_pos h255, if_pos (not_uint8_ne hd)]
  · intro h255 hne
    rw [if_neg h255, if_pos hne]
  · intro h255 heq
    rw [if_neg h255, if_neg (by simpa using heq)]
  · intro h255
    rw [if_neg h255]
    by_cases heq : dir_mask = st.previous_dir_mask
    · rw [if_neg (by simpa using heq), ← heq, changed_axes_self]
    · rw [if_pos heq]
      exact changed_axes_le st _ _

/-- Witness for C15 (amended): two active axes with direction memory 0;
`step(0, 0b01)` invokes `finish_dir` twice and `step(0, 0)` never. -/
theorem finish_dir_once_per_active_axis_witness :
    ((1 : Nat) < 256 ∧ (step 2 0 0 two_axes).1.previous_dir_mask ≠ 255 ∧
      (1 : Nat) ≠ (step 2 0 0 two_axes).1.previous_dir_mask) ∧
    (step 2 0 1 (step 2 0 0 two_axes).1).2.count Call.finish_dir =
      (step 2 0 0 two_axes).1.n_active_axes ∧
    (step 2 0 0 (step 2 0 0 two_axes).1).2.count Call.finish_dir = 0 :=
  ⟨⟨by decide, by decide, by decide⟩,
    (finish_dir_once_per_active_axis 2 0 1 (step 2 0 0 two_axes).1 (by decide)).2.1
      (by decide) (by decide),
    (finish_dir_once_per_active_axis 2 0 0 (step 2 0 0 two_axes).1 (by decide)).2.2.1
      (by decide) (by decide)⟩

/-- C16: `assignMotor(axis, ...)` sets the active-axis count to the maximum of
the previous count and `axis + 1`, and no operation of the core (`assignMotor`,
`block`, `unblock`, `limit`, `unlimit`, `step`, `unstep`) decreases the
active-axis count. -/
theorem active_axis_count_grows_only (handle : Int) (axis motor : Nat) (step_pin : Int)
    (step_invert : Bool) (dir_pin : Int) (dir_invert : Bool) (M : Nat) (op : Op) (st : State) :
    (assignMotor handle axis motor step_pin step_invert dir_pin dir_invert st).1.n_active_axes =
      max st.n_active_axes (axis + 1) ∧
    st.n_active_axes ≤ (op.run M st).n_active_axes :=
  ⟨assignMotor_n_active_axes handle axis motor step_pin step_invert dir_pin dir_invert st,
    op_n_active_axes_le M op st⟩

/-- Counterexample for C17: `assignMotor` does not compare its axis argument
with `MAX_N_AXIS`.  With `MAX_N_AXIS = 6`, one call `assignMotor(6, ...)` from
the initial state leaves the active-axis count at 7; and whatever the value of
`MAX_N_AXIS`, some sequence of calls leaves the count above it. -/
theorem active_axis_count_exceeds_maximum :
    (run_ops 2 [Op.assignMotor 7 6 0 12 false 14 false] State.initial).n_active_axes = 7 ∧
    ¬ (run_ops 2 [Op.assignMotor 7 6 0 12 false 14 false] State.initial).n_active_axes ≤ 6 ∧
    ¬ ∃ N, ∀ (M : Nat) (ops : List Op), (run_ops M ops State.initial).n_active_axes ≤ N := by
  refine ⟨by decide, by decide, ?_⟩
  rintro ⟨N, h⟩
  have h1 := h 2 [Op.assignMotor 7 N 0 12 false 14 false]
  have h2 : (run_ops 2 [Op.assignMotor 7 N 0 12 false 14 false] State.initial).n_active_axes =
      max State.initial.n_active_axes (N + 1) :=
    assignMotor_n_active_axes 7 N 0 12 false 14 false State.initial
  rw [h2] at h1
  have h3 := Nat.le_max_right State.initial.n_active_axes (N + 1)
  omega

/-- C17 (amended): in every state reachable from the initial state by a
sequence of `assignMotor`, `block`, `unblock`, `limit`, `unlimit`, `step` and
`unstep` calls in which every `assignMotor` call has its axis argument below
`MAX_N_AXIS`, the active-axis count is at most `MAX_N_AXIS`. -/
theorem active_axis_count_bounded (MAX_N_AXIS M : Nat) (ops : List Op)
    (hops : ∀ op ∈ ops, op.assigns_in_range MAX_N_AXIS) :
    (run_ops M ops State.initial).n_active_axes ≤ MAX_N_AXIS :=
  run_ops_n_active_axes_bound MAX_N_AXIS M ops State.initial hops (Nat.zero_le _)

/-- Witness for C17 (amended): with `MAX_N_AXIS = 6`, assignments on axes 5 and
2 followed by a `block`, a `step` and an `unstep` leave the count at 6. -/
theorem active_axis_count_bounded_witness :
    (∀ op ∈ [Op.assignMotor 7 5 0 12 false 14 false, Op.assignMotor 8 2 1 13 false 15 false,
        Op.block 2 1, Op.step 36 4, Op.unstep false], op.assigns_in_range 6) ∧
    (run_ops 2 [Op.assignMotor 7 5 0 12 false 14 false, Op.assignMotor 8 2 1 13 false 15 false,
        Op.block 2 1, Op.step 36 4, Op.unstep false] State.initial).n_active_axes ≤ 6 :=
  ⟨by decide, active_axis_count_bounded 6 2 _ (by decide)⟩

/-- C19: the backend calls of one `step` call are, in order: the direction-pin
writes and direction-settle calls, then the step-pin assertions, then
`finish_step`, which is the last call and is made exactly once, whatever the
step mask; so no step pin is asserted before a direction-pin write of the same
call. -/
theorem step_trace_shape (M step_mask dir_mask : Nat) (st : State) :
    (step M step_mask dir_mask st).2 =
      dir_calls M st (to_uint8 dir_mask) ++ step_calls M st (to_uint8 step_mask) ++
        [Call.finish_step] ∧
    (∀ c ∈ dir_calls M st (to_uint8 dir_mask),
      (∃ p l, c = Call.set_dir_pin p l) ∨ c = Call.finish_dir) ∧
    (∀ c ∈ step_calls M st (to_uint8 step_mask), ∃ p l, c = Call.set_step_pin p l) ∧
    (step M step_mask dir_mask st).2.Pairwise
      (fun earlier later => step_call_phase earlier ≤ step_call_phase later) ∧
    (step M step_mask dir_mask st).2.count Call.finish_step = 1 ∧
    (step M 0 dir_mask st).2.count Call.finish_step = 1 ∧
    (step M step_mask dir_mask st).2.getLast? = some Call.finish_step := by
  have hd := mem_dir_calls M st (to_uint8 dir_mask)
  have hs := mem_step_calls M st (to_uint8 step_mask)
  have hd0 : ∀ c ∈ dir_calls M st (to_uint8 dir_mask), step_call_phase c = 0 := by
    intro c hc
    rcases hd c hc with ⟨p, l, rfl⟩ | rfl <;> rfl
  have hs1 : ∀ c ∈ step_calls M st (to_uint8 step_mask), step_call_phase c = 1 := by
    intro c hc
    obtain ⟨p, l, rfl⟩ := hs c hc
    rfl
  have hcount : ∀ sm, (step M sm dir_mask st).2.count Call.finish_step = 1 := by
    intro sm
    rw [step_eq]
    have c1 : (dir_calls M st (to_uint8 dir_mask)).count Call.finish_step = 0 := by
      rw [List.count_eq_zero]
      intro hmem
      rcases hd _ hmem with ⟨p, l, h⟩ | h <;> cases h
    have c2 : (step_calls M st (to_uint8 sm)).count Call.finish_step = 0 := by
      rw [List.count_eq_zero]
      intro hmem
      obtain ⟨p, l, h⟩ := mem_step_calls M st (to_uint8 sm) _ hmem
      cases h
    simp [List.count_append, c1, c2]
  refine ⟨by rw [step_eq], hd, hs, ?_, hcount step_mask, hcount 0, by rw [step_eq]; simp⟩
  rw [step_eq]
  simp only [List.pairwise_append, List.pairwise_singleton, List.mem_append, List.mem_singleton]
  refine ⟨⟨?_, ?_, ?_⟩, trivial, ?_⟩
  · exact List.pairwise_of_forall_mem_list (fun a ha b hb => by rw [hd0 a ha, hd0 b hb])
  · exact List.pairwise_of_forall_mem_list (fun a ha b hb => by rw [hs1 a ha, hs1 b hb])
  · intro a ha b hb
    rw [hd0 a ha, hs1 b hb]
    exact Nat.zero_le _
  · intro a ha b hb
    subst hb
    rcases ha with ha | ha
    · rw [hd0 a ha]; exact Nat.zero_le _
    · rw [hs1 a ha]; decide

/-- Witness for C19: two axes in the start-up state; `step(0b01, 0b01)` writes
both direction pins, each followed by `finish_dir`, then asserts the step pin
of axis 0, then calls `finish_step`. -/
theorem step_trace_shape_witness :
    (step 2 1 1 two_axes).2 =
      [Call.set_dir_pin 14 true, Call.finish_dir, Call.set_dir_pin 17 false, Call.finish_dir,
        Call.set_step_pin 7 true, Call.finish_step] ∧
    (∀ c ∈ dir_calls 2 two_axes (to_uint8 1),
      (∃ p l, c = Call.set_dir_pin p l) ∨ c = Call.finish_dir) ∧
    (step 2 0 1 two_axes).2.count Call.finish_step = 1 :=
  ⟨(step_trace_shape 2 1 1 two_axes).1.trans (by decide),
    (step_trace_shape 2 1 1 two_axes).2.1,
    (step_trace_shape 2 1 1 two_axes).2.2.2.2.2.1⟩

/-- Counterexample for C22: both motors of axis 0 are suppressed (one limited,
one blocked) and the accumulator is at `INT_MIN` = -2147483648;
`step(0b1, 0b1)` selects axis 0 with direction bit 1, writes no step pin, and
leaves the accumulator at `INT_MAX` = 2147483647, not at its value before
minus 1. -/
theorem suppressed_axis_accumulator_wraps_at_int_min :
    0 < suppressed_at_int_min.n_active_axes ∧ bitnum_is_true 1 0 = true ∧
    suppressed_at_int_min.axis_steps 0 = -2147483648 ∧
    step_writes (step 2 1 1 suppressed_at_int_min).2 = [] ∧
    (step 2 1 1 suppressed_at_int_min).1.axis_steps 0 = 2147483647 ∧
    (step 2 1 1 suppressed_at_int_min).1.axis_steps 0 ≠
      suppressed_at_int_min.axis_steps 0 - 1 ∧
    (step 2 1 1 suppressed_at_int_min).1.axis_steps 0 ≠
      suppressed_at_int_min.axis_steps 0 + 1 := by
  decide

/-- C22 (amended): the step accumulator counts requested steps, not issued
pulses.  When every motor of every active axis selected by the step mask is
blocked or limited, or such an axis has no occupied slot, `step` writes no
step pin, and still changes the accumulator of each selected active axis by
+1 (direction bit 0) or -1 (direction bit 1) in the 32-bit two's-complement
arithmetic of the `int` accumulator: exactly +1 unless the previous value is
`INT_MAX`, which wraps to `INT_MIN`, and exactly -1 unless the previous value
is `INT_MIN`, which wraps to `INT_MAX`. -/
theorem accumulator_counts_requested_steps (M step_mask dir_mask : Nat) (st : State)
    (hs : step_mask < 256) (hd : dir_mask < 256)
    (hsup : ∀ a, a < st.n_active_axes → bitnum_is_true step_mask a = true → ∀ m, m < M →
      ∀ mot, st.axis_motors a m = some mot → mot.blocked = true ∨ mot.limited = true) :
    step_writes (step M step_mask dir_mask st).2 = [] ∧
    ∀ axis, axis < st.n_active_axes → bitnum_is_true step_mask axis = true →
      -2147483648 ≤ st.axis_steps axis → st.axis_steps axis ≤ 2147483647 →
      (bitnum_is_true dir_mask axis = false →
        (step M step_mask dir_mask st).1.axis_steps axis = to_int32 (st.axis_steps axis + 1) ∧
        (st.axis_steps axis < 2147483647 →
          (step M step_mask dir_mask st).1.axis_steps axis = st.axis_steps axis + 1) ∧
        (st.axis_steps axis = 2147483647 →
          (step M step_mask dir_mask st).1.axis_steps axis = -2147483648)) ∧
      (bitnum_is_true dir_mask axis = true →
        (step M step_mask dir_mask st).1.axis_steps axis = to_int32 (st.axis_steps axis - 1) ∧
        (-2147483648 < st.axis_steps axis →
          (step M step_mask dir_mask st).1.axis_steps axis = st.axis_steps axis - 1) ∧
        (st.axis_steps axis = -2147483648 →
          (step M step_mask dir_mask st).1.axis_steps axis = 2147483647)) := by
  constructor
  · rw [step_writes_step, to_uint8_of_lt hs]
    exact asserted_step_writes_eq_nil M st step_mask hsup
  · intro axis hactive hbit hlo hhi
    have hacc := step_axis_steps_of_selected M step_mask dir_mask st axis hs hd hactive hbit
    have hup := to_int32_succ_cases (st.axis_steps axis) hlo hhi
    have hdown := to_int32_pred_cases (st.axis_steps axis) hlo hhi
    constructor
    · intro h
      rw [h] at hacc
      have hacc2 : (step M step_mask dir_mask st).1.axis_steps axis =
          to_int32 (st.axis_steps axis + 1) := hacc
      exact ⟨hacc2, fun hlt => hacc2.trans (hup.1 hlt), fun heq => hacc2.trans (hup.2 heq)⟩
    · intro h
      rw [h] at hacc
      have hacc2 : (step M step_mask dir_mask st).1.axis_steps axis =
          to_int32 (st.axis_steps axis - 1) := hacc
      exact ⟨hacc2, fun hlt => hacc2.trans (hdown.1 hlt), fun heq => hacc2.trans (hdown.2 heq)⟩

/-- Witness for C22 (amended): with both motors of axis 0 suppressed (one
limited, one blocked), and with no motor on axis 0 at all, `step(0b1, 0b0)`
writes no step pin and moves accumulator 0 from 0 to 1; with the suppressed
motors and the accumulator at `INT_MIN`, `step(0b1, 0b0)` moves it to
`INT_MIN + 1`. -/
theorem accumulator_counts_requested_steps_witness :
    (∀ a, a < (limit 0 0 two_motors_one_blocked).n_active_axes →
      bitnum_is_true 1 a = true → ∀ m, m < 2 →
      ((limit 0 0 two_motors_one_blocked).axis_motors a m).all
        (fun mot => mot.blocked || mot.limited) = true) ∧
    step_writes (step 2 1 0 (limit 0 0 two_motors_one_blocked)).2 = [] ∧
    (step 2 1 0 (limit 0 0 two_motors_one_blocked)).1.axis_steps 0 =
      (limit 0 0 two_motors_one_blocked).axis_steps 0 + 1 ∧
    empty_axis_0.axis_motors 0 0 = none ∧ empty_axis_0.axis_motors 0 1 = none ∧
    step_writes (step 2 1 0 empty_axis_0).2 = [] ∧
    (step 2 1 0 empty_axis_0).1.axis_steps 0 = empty_axis_0.axis_steps 0 + 1 ∧
    (step 2 1 0 suppressed_at_int_min).1.axis_steps 0 =
      suppressed_at_int_min.axis_steps 0 + 1 := by
  have hlim : ∀ a, a < (limit 0 0 two_motors_one_blocked).n_active_axes →
      bitnum_is_true 1 a = true → ∀ m, m < 2 →
      ((limit 0 0 two_motors_one_blocked).axis_motors a m).all
        (fun mot => mot.blocked || mot.limited) = true := by decide
  have hemp : ∀ a, a < empty_axis_0.n_active_axes →
      bitnum_is_true 1 a = true → ∀ m, m < 2 →
      (empty_axis_0.axis_motors a m).all (fun mot => mot.blocked || mot.limited) = true := by
    decide
  have hmin : ∀ a, a < suppressed_at_int_min.n_active_axes →
      bitnum_is_true 1 a = true → ∀ m, m < 2 →
      (suppressed_at_int_min.axis_motors a m).all
        (fun mot => mot.blocked || mot.limited) = true := by decide
  have h1 := accumulator_counts_requested_steps 2 1 0 (limit 0 0 two_motors_one_blocked)
    (by decide) (by decide)
    (fun a ha hb m hm mot hocc => by
      have := hlim a ha hb m hm
      rw [hocc] at this
      simpa using this)
  have h2 := accumulator_counts_requested_steps 2 1 0 empty_axis_0 (by decide) (by decide)
    (fun a ha hb m hm mot hocc => by
      have := hemp a ha hb m hm
      rw [hocc] at this
      simpa using this)
  have h3 := accumulator_counts_requested_steps 2 1 0 suppressed_at_int_min (by decide)
    (by decide)
    (fun a ha hb m hm mot hocc => by
      have := hmin a ha hb m hm
      rw [hocc] at this
      simpa using this)
  exact ⟨hlim, h1.1,
    ((h1.2 0 (by decide) (by decide) (by decide) (by decide)).1 (by decide)).2.1 (by decide),
    by decide, by decide, h2.1,
    ((h2.2 0 (by decide) (by decide) (by decide) (by decide)).1 (by decide)).2.1 (by decide),
    ((h3.2 0 (by decide) (by decide) (by decide) (by decide)).1 (by decide)).2.1 (by decide)⟩

/-- C23: the hot path never mutates configuration state.  `step` leaves every
slot of the pin table (its occupancy and, where occupied, the whole motor
record) and the active-axis count unchanged; `unstep` leaves the whole state
unchanged, step accumulators and direction memory included, whatever
`start_unstep` returns. -/
theorem hot_path_keeps_configuration (M step_mask dir_mask : Nat) (self_managed : Bool)
    (st : State) :
    (∀ axis motor, (step M step_mask dir_mask st).1.axis_motors axis motor =
      st.axis_motors axis motor) ∧
    (step M step_mask dir_mask st).1.n_active_axes = st.n_active_axes ∧
    (∀ axis motor, (unstep M self_managed st).1.axis_motors axis motor =
      st.axis_motors axis motor) ∧
    (unstep M self_managed st).1.n_active_axes = st.n_active_axes ∧
    (∀ axis, (unstep M self_managed st).1.axis_steps axis = st.axis_steps axis) ∧
    (unstep M self_managed st).1.previous_dir_mask = st.previous_dir_mask ∧
    (unstep M self_managed st).1 = st := by
  have hu := unstep_state M self_managed st
  refine ⟨fun axis motor => by rw [step_axis_motors], step_n_active_axes M step_mask dir_mask st,
    fun axis motor => by rw [hu], by rw [hu], fun axis => by rw [hu], by rw [hu], hu⟩

end Stepping

/-! ## Trinamic SPI driver: theorems -/

namespace MotorDrivers

theorem big_endian_word_ne_low_byte (inbuf : Nat → Nat) (h4 : inbuf 4 < 256)
    (hne : inbuf 1 ≠ 0 ∨ inbuf 2 ≠ 0 ∨ inbuf 3 ≠ 0) : inbuf 4 ≠ big_endian_word inbuf := by
  intro heq
  have hlow : ∀ j, 8 ≤ j → (inbuf 4).testBit j = false := by
    intro j hj
    apply Nat.testBit_lt_two_pow
    calc inbuf 4 < 2 ^ 8 := by simpa using h4
      _ ≤ 2 ^ j := Nat.pow_le_pow_right (by decide) hj
  have hbit : ∀ k s, (s = 24 ∨ s = 16 ∨ s = 8) → inbuf k ≠ 0 →
      (k = 1 ∧ s = 24 ∨ k = 2 ∧ s = 16 ∨ k = 3 ∧ s = 8) →
      ∃ j, 8 ≤ j ∧ (big_endian_word inbuf).testBit j = true := by
    intro k s hs hk hks
    obtain ⟨i, hi⟩ := Nat.ne_zero_implies_bit_true hk
    refine ⟨i + s, by omega, ?_⟩
    unfold big_endian_word
    simp only [Nat.testBit_or, Nat.testBit_shiftLeft]
    rcases hks with ⟨rfl, rfl⟩ | ⟨rfl, rfl⟩ | ⟨rfl, rfl⟩ <;> simp [hi]
  have hex : ∃ j, 8 ≤ j ∧ (big_endian_word inbuf).testBit j = true := by
    rcases hne with h | h | h
    · exact hbit 1 24 (Or.inl rfl) h (Or.inl ⟨rfl, rfl⟩)
    · exact hbit 2 16 (Or.inr (Or.inl rfl)) h (Or.inr (Or.inl ⟨rfl, rfl⟩))
    · exact hbit 3 8 (Or.inr (Or.inr rfl)) h (Or.inr (Or.inr ⟨rfl, rfl⟩))
  obtain ⟨j, hj, hset⟩ := hex
  rw [← heq, hlow j hj] at hset
  cases hset

/-- C18: evaluation of `TrinamicSpiDriver::afterParse` where the claim fails.
Two daisy-chained drivers are parsed, both with `spi_index` 8.  Bit 8 does not
fit the 8-bit `_spi_index_mask`: the first driver leaves the mask at 0 and the
second passes the uniqueness `Assert`, so the conflict goes undetected.  With
both indices 3 the second `afterParse` fails as it should. -/
theorem afterParse_misses_conflict_at_index_8 :
    TrinamicSpiDriver.afterParse 1 5
        { cs_pin_defined := true, spi_index := 8, spi_devid := 0 } TrinamicStatics.initial =
      Except.ok ({ cs_pin_defined := true, spi_index := 8, spi_devid := 1 },
        { daisy_chain_cs_id := 5, daisy_chain_spi_devid := 1, spi_index_mask := 0,
          spi_index_max := 0 }) ∧
    TrinamicSpiDriver.afterParse 0 0
        { cs_pin_defined := false, spi_index := 8, spi_devid := 0 }
        { daisy_chain_cs_id := 5, daisy_chain_spi_devid := 1, spi_index_mask := 0,
          spi_index_max := 0 } =
      Except.ok ({ cs_pin_defined := false, spi_index := 8, spi_devid := 1 },
        { daisy_chain_cs_id := 5, daisy_chain_spi_devid := 1, spi_index_mask := 0,
          spi_index_max := 8 }) ∧
    TrinamicSpiDriver.afterParse 1 5
        { cs_pin_defined := true, spi_index := 3, spi_devid := 0 } TrinamicStatics.initial =
      Except.ok ({ cs_pin_defined := true, spi_index := 3, spi_devid := 1 },
        { daisy_chain_cs_id := 5, daisy_chain_spi_devid := 1, spi_index_mask := 8,
          spi_index_max := 0 }) ∧
    TrinamicSpiDriver.afterParse 0 0
        { cs_pin_defined := false, spi_index := 3, spi_devid := 0 }
        { daisy_chain_cs_id := 5, daisy_chain_spi_devid := 1, spi_index_mask := 8,
          spi_index_max := 0 } =
      Except.error TmcConfigError.spi_index_must_be_unique :=
  ⟨rfl, rfl, rfl, rfl⟩

/-- C20: for every 5-byte packet delivered by the bus, `tmc_spi_receive`
returns the last byte `in[4]` alone, a number in 0..255: packets that agree in
`in[4]` give the same result, and the result differs from the big-endian value
`in[1] << 24 | in[2] << 16 | in[3] << 8 | in[4]` whenever one of `in[1]`,
`in[2]`, `in[3]` is non-zero. -/
theorem tmc_spi_receive_returns_last_byte (index max_index : Int) (inbuf : Nat → Nat)
    (hbytes : ∀ i, i < 5 → inbuf i < 256) :
    (tmc_spi_receive index max_index inbuf).2 = inbuf 4 ∧
    (tmc_spi_receive index max_index inbuf).2 < 256 ∧
    (∀ other : Nat → Nat, (∀ i, i < 5 → other i < 256) → other 4 = inbuf 4 →
      (tmc_spi_receive index max_index other).2 = (tmc_spi_receive index max_index inbuf).2) ∧
    ((inbuf 1 ≠ 0 ∨ inbuf 2 ≠ 0 ∨ inbuf 3 ≠ 0) →
      (tmc_spi_receive index max_index inbuf).2 ≠ big_endian_word inbuf) := by
  have hval : ∀ buf : Nat → Nat, (∀ i, i < 5 → buf i < 256) →
      (tmc_spi_receive index max_index buf).2 = buf 4 := by
    intro buf hb
    have h4 := hb 4 (by decide)
    simp only [tmc_spi_receive, assign, to_uint32, Stepping.to_uint8]
    omega
  refine ⟨hval inbuf hbytes, ?_, ?_, ?_⟩
  · rw [hval inbuf hbytes]; exact hbytes 4 (by decide)
  · intro other hother h4
    rw [hval inbuf hbytes, hval other hother, h4]
  · intro hne
    rw [hval inbuf hbytes]
    exact big_endian_word_ne_low_byte inbuf (hbytes 4 (by decide)) hne

/-- Witness for C20: the packet `00 12 34 56 78` yields 0x78 = 120, not
0x12345678. -/
theorem tmc_spi_receive_returns_last_byte_witness :
    (∀ i, i < 5 → packet 0 18 52 86 120 i < 256) ∧
    (tmc_spi_receive 1 1 (packet 0 18 52 86 120)).2 = 120 ∧
    big_endian_word (packet 0 18 52 86 120) = 305419896 ∧
    (tmc_spi_receive 1 1 (packet 0 18 52 86 120)).2 ≠ big_endian_word (packet 0 18 52 86 120) :=
  ⟨by decide,
    (tmc_spi_receive_returns_last_byte 1 1 (packet 0 18 52 86 120) (by decide)).1,
    by decide,
    (tmc_spi_receive_returns_last_byte 1 1 (packet 0 18 52 86 120) (by decide)).2.2.2
      (Or.inl (by decide))⟩

/-- C21: evaluation of `tmc_spi_send` where the claim fails.  For chain
indices 1 and 7 the transport receives 40 × (index − 1) dummy bits (0 and
240).  For index 8 the count 280 does not fit the `uint8_t dummybits`
parameter of `spi_send_cmd_addr` and the transport receives 24; for index 127
it receives 176 instead of 5040; and for every index from 8 to 127 the count
received differs from 40 × (index − 1). -/
theorem tmc_spi_send_truncates_dummy_bits :
    (tmc_spi_send 108 0 1).dummy_bits = 0 ∧
    (tmc_spi_send 108 0 7).dummy_bits = 240 ∧
    (tmc_spi_send 108 0 8).dummy_bits = 24 ∧
    40 * (8 - 1) = 280 ∧
    (tmc_spi_send 108 0 127).dummy_bits = 176 ∧
    ∀ k : Fin 120,
      (tmc_spi_send 108 0 ((k.val + 8 : Nat) : Int)).dummy_bits ≠ 40 * (k.val + 8 - 1) := by
  decide

end MotorDrivers
